import Mathlib

/-!
# ioIntegrate: stream aggregator and broadcaster

A shallow embedding of `iointegrate.go`.

* Bytes are `Fin 256`; a `uuid.UUID` is a natural number handed in by the
  caller of the model (the source draws it with `uuid.NewRandom`).
* A Go `map[uuid.UUID]T` is an association list with pairwise distinct keys.
  Go leaves the order of `range` over a map unspecified; the order of the
  list stands for whichever order an execution takes.
* The `sync.Mutex` of each component is not a field of the model: every
  critical section of the source is one atomic step of the model, except the
  write into the internal pipe (lines 123 to 125), which waits inside its
  critical section until the reader of the pipe has taken its bytes. That
  write is two steps, its beginning and its end, and the model lets other
  actions happen in between where the mutex would make them wait; so every
  execution of the source is a schedule of the model.
* Goroutines are small state machines (a program counter plus the local
  scratch buffer); a scheduler interleaves their atomic steps with the
  calls of the public API.
* A task that blocks (a read of a pipe nobody writes to, a write nobody
  reads) is a step that leaves the state unchanged.
* A panic ends the process: once a task has panicked no action has any effect.
-/

namespace IoIntegrate

abbrev Byte := Fin 256

abbrev UUID := Nat

/-- The two errors of `io` that the pipe can report. -/
inductive IoError where
  | EOF
  | ErrClosedPipe
  deriving DecidableEq, Repr

/-! ## Go maps -/

/-- A Go map keyed by `uuid.UUID`: entries with pairwise distinct keys. -/
structure GoMap (V : Type) where
  entries : List (UUID × V)
  nodup : (entries.map Prod.fst).Nodup

/-- The literal `map[uuid.UUID]T{}`. -/
def GoMap.empty {V : Type} : GoMap V := ⟨[], List.nodup_nil⟩

def GoMap.keys {V : Type} (m : GoMap V) : List UUID := m.entries.map Prod.fst

/-- The lookup `v, ok := m[k]`; `none` stands for `ok = false`. -/
def GoMap.lookup {V : Type} (m : GoMap V) (k : UUID) : Option V :=
  (m.entries.find? (fun e => e.1 == k)).map Prod.snd

/-- The builtin `delete(m, k)`. -/
def GoMap.delete {V : Type} (m : GoMap V) (k : UUID) : GoMap V :=
  ⟨m.entries.filter (fun e => e.1 != k),
    List.Nodup.sublist ((List.filter_sublist m.entries).map Prod.fst) m.nodup⟩

/-- The assignment `m[k] = v`: an entry with key `k` is replaced. -/
def GoMap.insert {V : Type} (m : GoMap V) (k : UUID) (v : V) : GoMap V :=
  ⟨(k, v) :: m.entries.filter (fun e => e.1 != k), by
    simp only [List.map_cons, List.nodup_cons]
    refine ⟨?_, List.Nodup.sublist ((List.filter_sublist m.entries).map Prod.fst) m.nodup⟩
    intro hmem
    rw [List.mem_map] at hmem
    obtain ⟨e, he, heq⟩ := hmem
    have hne := (List.mem_filter.mp he).2
    simp [heq] at hne⟩

/-! ## Streams outside the repository -/

/-- The largest length the Go runtime hands out for a byte slice (`maxAlloc`,
2^48 on 64-bit Linux). -/
def maxAlloc : Nat := 2 ^ 48

/-- The builtin `make([]byte, n)`: a negative length or one above the
allocation limit panics (`none`). -/
def makeBytes (n : Int) : Option (List Byte) :=
  if n < 0 ∨ (maxAlloc : Int) < n then none else some (List.replicate n.toNat 0)

/-- The builtin `copy(dst, src)`: the new `dst` and the number of bytes copied. -/
def copyBytes (dst src : List Byte) : List Byte × Nat :=
  let nr := min dst.length src.length
  (src.take nr ++ dst.drop nr, nr)

/-- Modelled from the spec: the synchronous pipe of section 4.1 (`io.Pipe` of
the Go standard library, which src/ only calls). The pipe stores no data. At
most one write is under way at a time; `offer` holds who is writing and the
bytes of that write no read has taken yet. Closing either end makes reads
and writes fail. -/
structure Pipe where
  offer : Option (Nat × List Byte)
  writeClosed : Bool
  readClosed : Bool
  deriving DecidableEq, Repr

/-- Modelled from the spec: `io.Pipe()`, both ends open, no write under way. -/
def Pipe.create : Pipe := ⟨none, false, false⟩

/-- Whether both ends of the pipe are open. -/
def Pipe.isOpen (p : Pipe) : Bool := !p.readClosed && !p.writeClosed

/-- The bytes of the write under way that no read has taken yet. -/
def Pipe.offerBytes (p : Pipe) : List Byte :=
  match p.offer with
  | some (_, b) => b
  | none => []

/-- The bytes of the write under way that no read has taken yet, if that write is by `who`. -/
def Pipe.pendingOf (p : Pipe) (who : Nat) : List Byte :=
  match p.offer with
  | some (w, b) => if w = who then b else []
  | none => []

/-- Modelled from the spec: `PipeReader.Read(buffer)`. `none` means the read
blocks (no write is under way). On a closed pipe it returns `0` and
end-of-stream (write end closed) or `ErrClosedPipe` (read end closed).
Otherwise it copies from the write under way; what does not fit in the
buffer stays on offer, and a write all of whose bytes are taken is over. -/
def Pipe.Read (p : Pipe) (buffer : List Byte) :
    Option (Pipe × List Byte × Nat × Option IoError) :=
  if p.readClosed then some (p, buffer, 0, some IoError.ErrClosedPipe)
  else if p.writeClosed then some (p, buffer, 0, some IoError.EOF)
  else
    match p.offer with
    | none => none
    | some (who, b) =>
      let r := copyBytes buffer b
      let left := b.drop r.2
      some ({ p with offer := if left.isEmpty then none else some (who, left) }, r.1, r.2, none)

/-- How a call of `PipeWriter.Write` begins. -/
inductive WriteStart where
  | failed (err : IoError)
  | busy
  | offered (p : Pipe)
  deriving DecidableEq, Repr

/-- Modelled from the spec: the beginning of `PipeWriter.Write(b)` by `who`.
On a closed pipe the call fails at once with `ErrClosedPipe`; while another
write is under way it waits (`busy`); otherwise its bytes are put on offer
and the call waits for reads to take them. -/
def Pipe.WriteStart (p : Pipe) (who : Nat) (b : List Byte) : WriteStart :=
  if p.readClosed || p.writeClosed then WriteStart.failed IoError.ErrClosedPipe
  else
    match p.offer with
    | some _ => WriteStart.busy
    | none => WriteStart.offered { p with offer := some (who, b) }

/-- Modelled from the spec: the end of `PipeWriter.Write(b)` by `who`, whose
`total` bytes were put on offer. `none` means the call still waits. Once
reads have taken all bytes it returns `total`; if the pipe is closed before
that, it returns the number of bytes taken so far and `ErrClosedPipe`. -/
def Pipe.WriteWait (p : Pipe) (who : Nat) (total : Nat) :
    Option (Pipe × Nat × Option IoError) :=
  match p.offer with
  | none => some (p, total, none)
  | some (w, left) =>
    if w = who then
      if p.readClosed || p.writeClosed then
        some ({ p with offer := none }, total - left.length, some IoError.ErrClosedPipe)
      else none
    else some (p, total, none)

/-- Modelled from the spec: `PipeWriter.Close()`. -/
def Pipe.CloseWriter (p : Pipe) : Pipe := { p with writeClosed := true }

/-- Modelled from the spec: `PipeReader.Close()`. -/
def Pipe.CloseReader (p : Pipe) : Pipe := { p with readClosed := true }

/-- A destination stream (`io.Writer`) handed to `AddWriter`: its identity and
what its `Write` answers for a given chunk. -/
structure Writer where
  handle : Nat
  Write : List Byte → Nat × Option IoError

/-- A source stream (`io.Reader`) handed to `AddReader`: its identity and the
chunks it still yields, oldest first; after the last one it reports
end-of-stream. -/
structure Reader where
  handle : Nat
  chunks : List (List Byte)
  deriving DecidableEq, Repr

/-- The call `r.Read(buffer)` on a source: the source afterwards, the buffer
afterwards, the count and the error. A chunk longer than the buffer is
delivered over several reads. -/
def Reader.Read (r : Reader) (buffer : List Byte) :
    Reader × List Byte × Nat × Option IoError :=
  match r.chunks with
  | [] => (r, buffer, 0, some IoError.EOF)
  | b :: rest =>
    let c := copyBytes buffer b
    let left := b.drop c.2
    ({ r with chunks := if left.isEmpty then rest else left :: rest }, c.1, c.2, none)

/-! ## The broadcaster `IntegratedIoWriter_t` -/

/-- The struct `IntegratedIoWriter_t`. `internalReader` and `PipeWriter` are
the two ends of the one pipe `pipe`. -/
structure IntegratedIoWriter_t where
  Uid : UUID
  pipe : Pipe
  writerList : GoMap Writer
  isWriteBroadCastExist : Bool
  bufferSize : Int

/-- The constructor `CreateIntegratedIoWriter`; `uid` is the value drawn by
`uuid.NewRandom`. -/
def CreateIntegratedIoWriter (bufferSize : Int) (uid : UUID) : IntegratedIoWriter_t :=
  { Uid := uid
    pipe := Pipe.create
    writerList := GoMap.empty
    isWriteBroadCastExist := false
    bufferSize := bufferSize }

/-- What the broadcaster does that the outside can observe. -/
inductive BEvent where
  | pipeRead (n : Nat) (err : Option IoError)
  | destWrite (uid : UUID) (handle : Nat) (bytes : List Byte) (n : Nat) (err : Option IoError)
  deriving DecidableEq, Repr

/-- Program counter and local variables of one `writeBroadCast` invocation. -/
inductive WPc where
  | entry
  | flagSeenClear
  | loopRead (buffer : List Byte)
  | loopFanOut (buffer : List Byte) (n : Nat)
  | returned
  | panicked
  deriving DecidableEq, Repr

/-- The loop `for _, w := range p.writerList { w.Write(buffer[:n]) }` over the
entries still to visit; the results of `Write` are dropped by the source and
only recorded in the trace. -/
def rangeWrite (chunk : List Byte) : List (UUID × Writer) → List BEvent → List BEvent
  | [], acc => acc
  | (uid, w) :: rest, acc =>
    let res := w.Write chunk
    rangeWrite chunk rest (acc ++ [BEvent.destWrite uid w.handle chunk res.1 res.2])

/-- The critical section of the broadcast loop (lines 94 to 98). -/
def fanOut (p : IntegratedIoWriter_t) (buffer : List Byte) (n : Nat) : List BEvent :=
  rangeWrite (buffer.take n) p.writerList.entries []

/-- One atomic step of a `writeBroadCast` invocation. -/
def writeBroadCastStep (p : IntegratedIoWriter_t) (pc : WPc) :
    IntegratedIoWriter_t × WPc × List BEvent :=
  match pc with
  | WPc.entry =>
    if !p.isWriteBroadCastExist then (p, WPc.flagSeenClear, []) else (p, WPc.returned, [])
  | WPc.flagSeenClear =>
    match makeBytes p.bufferSize with
    | none => ({ p with isWriteBroadCastExist := true }, WPc.panicked, [])
    | some buffer => ({ p with isWriteBroadCastExist := true }, WPc.loopRead buffer, [])
  | WPc.loopRead buffer =>
    match p.pipe.Read buffer with
    | none => (p, WPc.loopRead buffer, [])
    | some (pipe, buffer2, n, err) =>
      ({ p with pipe := pipe }, WPc.loopFanOut buffer2 n, [BEvent.pipeRead n err])
  | WPc.loopFanOut buffer n => (p, WPc.loopRead buffer, fanOut p buffer n)
  | WPc.returned => (p, WPc.returned, [])
  | WPc.panicked => (p, WPc.panicked, [])

/-- The method `AddWriter`: the component afterwards and the invocation of
`writeBroadCast` launched by `go`, at its entry. The returned id is `uid`. -/
def AddWriter (p : IntegratedIoWriter_t) (w : Writer) (uid : UUID) :
    IntegratedIoWriter_t × WPc :=
  ({ p with writerList := p.writerList.insert uid w }, WPc.entry)

/-- The method `RemoveWriter`. -/
def RemoveWriter (p : IntegratedIoWriter_t) (uid : UUID) : IntegratedIoWriter_t :=
  { p with writerList := p.writerList.delete uid }

/-- The method `CloseAllWriter`. -/
def CloseAllWriter (p : IntegratedIoWriter_t) : IntegratedIoWriter_t :=
  { p with pipe := p.pipe.CloseWriter }

/-- A broadcaster together with the `writeBroadCast` invocations launched so far. -/
structure BSys where
  p : IntegratedIoWriter_t
  tasks : List WPc

/-- What can happen next to a broadcaster: a call of its API, the beginning of
a write by the caller into the exposed `PipeWriter`, or one step of
invocation number `i`. -/
inductive BAct where
  | addWriter (w : Writer) (uid : UUID)
  | removeWriter (uid : UUID)
  | closeAll
  | extWrite (bytes : List Byte)
  | step (i : Nat)

/-- Whether an invocation has panicked. -/
def WPc.isPanicked : WPc → Bool
  | WPc.panicked => true
  | _ => false

/-- Whether the process has ended in a panic. -/
def BSys.crashed (s : BSys) : Bool := s.tasks.any WPc.isPanicked

/-- One action of the scheduler and the events it produces. In a process that
has panicked nothing happens any more. A write by the caller that finds the
pipe closed or another write under way puts nothing on offer. -/
def BSys.act (s : BSys) (a : BAct) : BSys × List BEvent :=
  if s.crashed then (s, [])
  else
    match a with
    | BAct.addWriter w uid =>
      let r := AddWriter s.p w uid
      (⟨r.1, s.tasks ++ [r.2]⟩, [])
    | BAct.removeWriter uid => (⟨RemoveWriter s.p uid, s.tasks⟩, [])
    | BAct.closeAll => (⟨CloseAllWriter s.p, s.tasks⟩, [])
    | BAct.extWrite bytes =>
      match s.p.pipe.WriteStart 0 bytes with
      | WriteStart.offered pipe => (⟨{ s.p with pipe := pipe }, s.tasks⟩, [])
      | _ => (s, [])
    | BAct.step i =>
      match s.tasks.get? i with
      | none => (s, [])
      | some pc =>
        let r := writeBroadCastStep s.p pc
        (⟨r.1, s.tasks.set i r.2.1⟩, r.2.2)

/-- A schedule run from `s`: the final state and all events in order. -/
def BSys.run (s : BSys) : List BAct → BSys × List BEvent
  | [] => (s, [])
  | a :: rest =>
    let r := s.act a
    let q := BSys.run r.1 rest
    (q.1, r.2 ++ q.2)

/-- How many invocations are inside the read and fan-out loop. -/
def inLoop : WPc → Bool
  | WPc.loopRead _ => true
  | WPc.loopFanOut _ _ => true
  | _ => false

/-- Whether an event is a write to a destination whose id and stream satisfy `q`. -/
def BEvent.isWriteWhere (q : UUID → Nat → Bool) : BEvent → Bool
  | BEvent.destWrite u h _ _ _ => q u h
  | _ => false

/-- Whether an event is a write to the destination registered under `uid`. -/
def BEvent.isWriteTo (uid : UUID) : BEvent → Bool :=
  BEvent.isWriteWhere (fun u _ => u == uid)

/-- Whether an event is a write to the destination stream `handle`. -/
def BEvent.isWriteToHandle (handle : Nat) : BEvent → Bool :=
  BEvent.isWriteWhere (fun _ h => h == handle)

/-- Whether an action is an `AddWriter` whose id and stream satisfy `q`. -/
def BAct.addsWhere (q : UUID → Nat → Bool) : BAct → Bool
  | BAct.addWriter w uid => q uid w.handle
  | _ => false

/-- Whether an action is an `AddWriter` that registers under `uid`. -/
def BAct.addsId (uid : UUID) : BAct → Bool :=
  BAct.addsWhere (fun u _ => u == uid)

/-- Whether an action is an `AddWriter` of the destination stream `handle`. -/
def BAct.addsHandle (handle : Nat) : BAct → Bool :=
  BAct.addsWhere (fun _ h => h == handle)

/-- The write event of one visit of the fan-out loop. -/
def writeEvent (chunk : List Byte) (e : UUID × Writer) : BEvent :=
  BEvent.destWrite e.1 e.2.handle chunk (e.2.Write chunk).1 (e.2.Write chunk).2

/-- One iteration of the broadcast loop run without interruption: the read
of the pipe (line 92) followed by the fan-out (lines 94 to 98). -/
def broadcastIteration (p : IntegratedIoWriter_t) (buffer : List Byte) :
    IntegratedIoWriter_t × WPc × List BEvent :=
  let r1 := writeBroadCastStep p (WPc.loopRead buffer)
  let r2 := writeBroadCastStep r1.1 r1.2.1
  (r2.1, r2.2.1, r1.2.2 ++ r2.2.2)

/-- The chunk an invocation has read from the pipe and not yet fanned out. -/
def handOf : WPc → List Byte
  | WPc.loopFanOut buffer n => buffer.take n
  | _ => []

/-- The bytes inside the broadcaster that are still to be fanned out: the
chunks in the hands of its tasks and what is on offer in the pipe. -/
def BSys.undelivered (s : BSys) : List Byte :=
  (s.tasks.map handOf).flatten ++ s.p.pipe.offerBytes

/-- The bytes an action hands to the exposed `PipeWriter`. -/
def BAct.input : BAct → List Byte
  | BAct.extWrite bytes => bytes
  | _ => []

/-- All bytes a schedule hands to the exposed `PipeWriter`. -/
def inputOf (acts : List BAct) : List Byte := (acts.map BAct.input).flatten

/-- The bytes of an event if it is a write to the destination registered under `uid`. -/
def BEvent.bytesFor (uid : UUID) : BEvent → List Byte
  | BEvent.destWrite u _ bytes _ _ => if u = uid then bytes else []
  | _ => []

/-- All bytes written to the destination registered under `uid`, in order. -/
def bytesTo (uid : UUID) (evs : List BEvent) : List Byte :=
  (evs.map (BEvent.bytesFor uid)).flatten

/-! ## The aggregator `IntegratedIoReader_t` -/

/-- The struct `IntegratedIoReader_t`. `PipeReader` and `internalWriter` are
the two ends of the one pipe `pipe`; `readerList` maps an id to the identity
of the registered source. -/
structure IntegratedIoReader_t where
  Uid : UUID
  pipe : Pipe
  readerList : GoMap Nat
  isReadCollectExist : Bool
  bufferSize : Int

/-- The constructor `CreateIntegratedIoReader`; `uid` is the value drawn by
`uuid.NewRandom`. -/
def CreateIntegratedIoReader (bufferSize : Int) (uid : UUID) : IntegratedIoReader_t :=
  { Uid := uid
    pipe := Pipe.create
    readerList := GoMap.empty
    isReadCollectExist := false
    bufferSize := bufferSize }

/-- What one forwarding task does that the outside can observe: a read of its
source that has returned, and a call of `internalWriter.Write` that has
returned, with the bytes passed to it and its results. -/
inductive TEvent where
  | srcRead (n : Nat) (err : Option IoError)
  | pipeWrite (bytes : List Byte) (n : Nat) (err : Option IoError)
  deriving DecidableEq, Repr

/-- Program counter and scratch buffer of one `readBroadCast` invocation. At
`writing` the call of `internalWriter.Write` has put its bytes on offer and
has not returned yet. -/
inductive RPc where
  | entry
  | check (buffer : List Byte)
  | read (buffer : List Byte)
  | write (buffer : List Byte) (n : Nat)
  | writing (buffer : List Byte) (n : Nat)
  | exited
  | panicked
  deriving DecidableEq, Repr

/-- One `readBroadCast(r, Uid)` invocation: its arguments (the source with
what it still yields, and the id) and where it stands. -/
structure ReadTask where
  Uid : UUID
  r : Reader
  pc : RPc
  deriving DecidableEq, Repr

/-- One atomic step of the `readBroadCast` invocation number `who`: the
allocation of the buffer (line 115), the membership check (lines 117 to
120), the read of the source (line 121), or the beginning or the end of the
write into the pipe (line 124). -/
def readBroadCastStep (who : Nat) (p : IntegratedIoReader_t) (t : ReadTask) :
    IntegratedIoReader_t × ReadTask × List TEvent :=
  match t.pc with
  | RPc.entry =>
    match makeBytes p.bufferSize with
    | none => (p, { t with pc := RPc.panicked }, [])
    | some buffer => (p, { t with pc := RPc.check buffer }, [])
  | RPc.check buffer =>
    match p.readerList.lookup t.Uid with
    | some _ => (p, { t with pc := RPc.read buffer }, [])
    | none => (p, { t with pc := RPc.exited }, [])
  | RPc.read buffer =>
    let res := t.r.Read buffer
    (p, { t with r := res.1, pc := RPc.write res.2.1 res.2.2.1 },
      [TEvent.srcRead res.2.2.1 res.2.2.2])
  | RPc.write buffer n =>
    match p.pipe.WriteStart who (buffer.take n) with
    | WriteStart.failed err =>
      (p, { t with pc := RPc.check buffer }, [TEvent.pipeWrite (buffer.take n) 0 (some err)])
    | WriteStart.busy => (p, t, [])
    | WriteStart.offered pipe => ({ p with pipe := pipe }, { t with pc := RPc.writing buffer n }, [])
  | RPc.writing buffer n =>
    match p.pipe.WriteWait who (buffer.take n).length with
    | none => (p, t, [])
    | some res =>
      ({ p with pipe := res.1 }, { t with pc := RPc.check buffer },
        [TEvent.pipeWrite (buffer.take n) res.2.1 res.2.2])
  | RPc.exited => (p, t, [])
  | RPc.panicked => (p, t, [])

/-- The method `AddReader`: the component afterwards and the invocation of
`readBroadCast` launched by `go`, at its entry. The returned id is `uid`. -/
def AddReader (p : IntegratedIoReader_t) (r : Reader) (uid : UUID) :
    IntegratedIoReader_t × ReadTask :=
  ({ p with readerList := p.readerList.insert uid r.handle }, ⟨uid, r, RPc.entry⟩)

/-- The method `RemoveReader`. -/
def RemoveReader (p : IntegratedIoReader_t) (uid : UUID) : IntegratedIoReader_t :=
  { p with readerList := p.readerList.delete uid }

/-- The method `CloseAllReader`. -/
def CloseAllReader (p : IntegratedIoReader_t) : IntegratedIoReader_t :=
  { p with pipe := p.pipe.CloseReader }

/-- An aggregator together with the forwarding tasks launched so far, each
carrying the source it was launched with, and with what the consumer of the
exposed `PipeReader` has read so far: every piece with the number of the task
whose write it was taken from. -/
structure ASys where
  p : IntegratedIoReader_t
  tasks : List ReadTask
  consumed : List (Nat × List Byte)

/-- What can happen next to an aggregator: a call of its API, a read by the
consumer from the exposed `PipeReader` with a buffer of the given length, or
one step of forwarding task number `i`. -/
inductive AAct where
  | addReader (r : Reader) (uid : UUID)
  | removeReader (uid : UUID)
  | closeAll
  | extRead (len : Nat)
  | step (i : Nat)
  deriving DecidableEq, Repr

/-- Whether a forwarding task has panicked. -/
def RPc.isPanicked : RPc → Bool
  | RPc.panicked => true
  | _ => false

/-- Whether the process has ended in a panic. -/
def ASys.crashed (s : ASys) : Bool := s.tasks.any (fun t => t.pc.isPanicked)

/-- What a read by the consumer adds to its record: the bytes it found in its
buffer, with the writer they came from; nothing when the read failed. -/
def consumedPiece (offer : Option (Nat × List Byte))
    (res : Pipe × List Byte × Nat × Option IoError) : List (Nat × List Byte) :=
  match offer, res.2.2.2 with
  | some (who, _), none => [(who, res.2.1.take res.2.2.1)]
  | _, _ => []

/-- One action of the scheduler with the events it produces, each tagged with
the number of the task that produced it. In a process that has panicked
nothing happens any more. -/
def ASys.act (s : ASys) (a : AAct) : ASys × List (Nat × TEvent) :=
  if s.crashed then (s, [])
  else
    match a with
    | AAct.addReader r uid =>
      let res := AddReader s.p r uid
      ({ s with p := res.1, tasks := s.tasks ++ [res.2] }, [])
    | AAct.removeReader uid => ({ s with p := RemoveReader s.p uid }, [])
    | AAct.closeAll => ({ s with p := CloseAllReader s.p }, [])
    | AAct.extRead len =>
      match s.p.pipe.Read (List.replicate len 0) with
      | none => (s, [])
      | some res =>
        ({ s with p := { s.p with pipe := res.1 },
                  consumed := s.consumed ++ consumedPiece s.p.pipe.offer res }, [])
    | AAct.step i =>
      match s.tasks.get? i with
      | none => (s, [])
      | some t =>
        let res := readBroadCastStep i s.p t
        ({ s with p := res.1, tasks := s.tasks.set i res.2.1 }, res.2.2.map (fun e => (i, e)))

/-- A schedule run from `s`: the final state and all events in order. -/
def ASys.run (s : ASys) : List AAct → ASys × List (Nat × TEvent)
  | [] => (s, [])
  | a :: rest =>
    let res := s.act a
    let q := ASys.run res.1 rest
    (q.1, res.2 ++ q.2)

/-- The bytes an event passes to `internalWriter.Write`. -/
def localBytes : TEvent → List Byte
  | TEvent.pipeWrite bytes _ _ => bytes
  | _ => []

/-- The bytes of an event if it is a write into the pipe by task `i`. -/
def pipeBytes (i : Nat) (e : Nat × TEvent) : List Byte :=
  if e.1 = i then localBytes e.2 else []

/-- Whether an action is an `AddReader` that registers under `uid`. -/
def AAct.addsId (uid : UUID) : AAct → Bool
  | AAct.addReader _ u => u == uid
  | _ => false

/-- A bound on the number of reads that exhaust a source through a non-empty buffer. -/
def readsLeft (r : Reader) : Nat := r.chunks.flatten.length + r.chunks.length

/-- All bytes that task `i` passed to calls of `internalWriter.Write` that
have returned, in order. -/
def writtenBy (i : Nat) (evs : List (Nat × TEvent)) : List Byte :=
  (evs.map (pipeBytes i)).flatten

/-- All bytes the consumer has read that came from writes of task `i`, in order. -/
def deliveredFrom (i : Nat) (log : List (Nat × List Byte)) : List Byte :=
  (log.map (fun e => if e.1 = i then e.2 else [])).flatten

/-- The chunk a task has read from its source and not yet passed to a call of
`internalWriter.Write` that has returned. -/
def inHand : RPc → List Byte
  | RPc.write buffer n => buffer.take n
  | RPc.writing buffer n => buffer.take n
  | _ => []

/-- The chunk a task has read from its source and not yet put on offer in the pipe. -/
def unoffered : RPc → List Byte
  | RPc.write buffer n => buffer.take n
  | _ => []

/-- Whether the write under way in the pipe is by `who`. -/
def Pipe.heldBy (p : Pipe) (who : Nat) : Bool :=
  match p.offer with
  | some (w, _) => w == who
  | none => false

/-- Whether a task is inside a call of `internalWriter.Write` that has put its
bytes on offer. -/
def RPc.isWriting : RPc → Bool
  | RPc.writing _ _ => true
  | _ => false

/-- The bytes of source `t.r` that task `i` is accountable for in state `s`:
what the consumer has read of them, what is on offer in the pipe, what the
task has read and not yet put on offer, and what the source still yields. -/
def ASys.account (s : ASys) (i : Nat) (t : ReadTask) : List Byte :=
  deliveredFrom i s.consumed ++
    (s.p.pipe.pendingOf i ++ (unoffered t.pc ++ t.r.chunks.flatten))

/-- The uninterrupted iteration of forwarding task `i` with a consumer whose
buffer has length `len`: membership check, read of the source, beginning of
the write, read by the consumer, end of the write. -/
def soloIteration (i len : Nat) : List AAct :=
  [AAct.step i, AAct.step i, AAct.step i, AAct.extRead len, AAct.step i]

/-- The schedule that lets task `i` allocate its buffer and then run `m`
uninterrupted iterations with a consumer whose buffer has length `len`. -/
def soloSchedule (i len m : Nat) : List AAct :=
  AAct.step i :: (List.replicate m (soloIteration i len)).flatten

/-! ## Streams and states used in the scenarios -/

/-- A destination that accepts every chunk in full. -/
def okWriter (h : Nat) : Writer := ⟨h, fun b => (b.length, none)⟩

/-- A destination whose every `Write` fails. -/
def brokenWriter (h : Nat) : Writer := ⟨h, fun _ => (0, some IoError.ErrClosedPipe)⟩

/-- The bytes of "hello". -/
def hello : List Byte := [104, 101, 108, 108, 111]

/-- The bytes of "world". -/
def world : List Byte := [119, 111, 114, 108, 100]

/-- The bytes of "ABCD". -/
def abcd : List Byte := [65, 66, 67, 68]

/-- A fresh broadcaster with buffer size 8. -/
def bcast0 : BSys := ⟨CreateIntegratedIoWriter 8 0, []⟩

/-- Destinations D1 and D2 are added, the first invocation of `writeBroadCast`
enters its loop and the second returns. -/
def bcastTwo : BSys :=
  (bcast0.run [BAct.addWriter (okWriter 10) 1, BAct.addWriter (okWriter 20) 2,
    BAct.step 0, BAct.step 0, BAct.step 1]).1

/-- On top of `bcastTwo`, the caller has written "hello" into the exposed end. -/
def bcastHello : BSys := (bcastTwo.act (BAct.extWrite hello)).1

/-- On top of `bcastHello`, "hello" has been read and fanned out, and then a
third destination D3 has been added. -/
def bcastLate : BSys :=
  (bcastHello.run [BAct.step 0, BAct.step 0, BAct.addWriter (okWriter 30) 3]).1

/-- A broadcaster with the one destination D1, its broadcast task in the loop. -/
def bcastOne : BSys :=
  (bcast0.run [BAct.addWriter (okWriter 10) 1, BAct.step 0, BAct.step 0]).1

/-- A broadcaster whose destination D1 fails on every write and whose
destination D2 accepts every write. -/
def bcastBroken : IntegratedIoWriter_t :=
  (AddWriter (AddWriter (CreateIntegratedIoWriter 8 0) (okWriter 20) 2).1 (brokenWriter 10) 1).1

/-- A fresh aggregator with buffer size 4. -/
def aggr0 : ASys := ⟨CreateIntegratedIoReader 4 0, [], []⟩

/-- The aggregator after a source emitting "ABCD" was added under id 1. -/
def aggrAbcd : ASys := (aggr0.act (AAct.addReader ⟨1, [abcd]⟩ 1)).1

/-- The aggregator after a source that is already exhausted was added under
id 1 and `CloseAllReader` was called. -/
def aggrClosed : ASys := (aggr0.run [AAct.addReader ⟨1, []⟩ 1, AAct.closeAll]).1

/-- The state `aggrClosed` once the forwarding task has reached its first read. -/
def aggrClosedAtRead : ASys := (aggrClosed.run [AAct.step 0, AAct.step 0]).1

/-- The aggregator after a source emitting "ABCD" was added under id 1, its
task has read "ABCD" and `CloseAllReader` was called before the write. -/
def aggrAbcdClosed : ASys :=
  (aggrAbcd.run [AAct.step 0, AAct.step 0, AAct.step 0, AAct.closeAll]).1

/-! ## Lemmas on maps and on the fan-out loop -/

theorem rangeWrite_eq (chunk : List Byte) (l : List (UUID × Writer)) (acc : List BEvent) :
    rangeWrite chunk l acc = acc ++ l.map (writeEvent chunk) := by
  induction l generalizing acc with
  | nil => simp [rangeWrite]
  | cons a t ih =>
    obtain ⟨u, w⟩ := a
    simp [rangeWrite, ih, writeEvent]

theorem fanOut_eq (p : IntegratedIoWriter_t) (buffer : List Byte) (n : Nat) :
    fanOut p buffer n = p.writerList.entries.map (writeEvent (buffer.take n)) := by
  simp [fanOut, rangeWrite_eq]

theorem filter_key_none {V : Type} (l : List (UUID × V)) (uid : UUID)
    (h : uid ∉ l.map Prod.fst) : l.filter (fun e => e.1 == uid) = [] := by
  rw [List.filter_eq_nil_iff]
  intro e he hk
  apply h
  rw [List.mem_map]
  exact ⟨e, he, by simpa using hk⟩

theorem filter_key_of_lookup {V : Type} (l : List (UUID × V)) (uid : UUID) (v : V)
    (hnd : (l.map Prod.fst).Nodup)
    (h : (l.find? (fun e => e.1 == uid)).map Prod.snd = some v) :
    l.filter (fun e => e.1 == uid) = [(uid, v)] := by
  induction l with
  | nil => simp at h
  | cons a t ih =>
    obtain ⟨u, w⟩ := a
    simp only [List.map_cons, List.nodup_cons] at hnd
    by_cases hu : u = uid
    · subst hu
      simp only [List.find?_cons, beq_self_eq_true, Option.map_some', Option.some.injEq] at h
      subst h
      simp only [List.filter_cons, beq_self_eq_true, if_true]
      rw [filter_key_none t u hnd.1]
    · have hb : (u == uid) = false := by simpa using hu
      simp only [List.find?_cons, hb] at h
      simp only [List.filter_cons, hb]
      exact ih hnd.2 h

theorem lookup_of_mem {V : Type} (m : GoMap V) (uid : UUID) (v : V)
    (h : (uid, v) ∈ m.entries) : m.lookup uid = some v := by
  have hnd := m.nodup
  unfold GoMap.lookup
  generalize m.entries = l at h hnd
  induction l with
  | nil => simp at h
  | cons a t ih =>
    obtain ⟨u, w⟩ := a
    simp only [List.map_cons, List.nodup_cons] at hnd
    rcases List.mem_cons.mp h with heq | hmem
    · cases heq
      simp
    · have hne : u ≠ uid := by
        intro hu
        subst hu
        apply hnd.1
        rw [List.mem_map]
        exact ⟨(u, v), hmem, rfl⟩
      have hb : (u == uid) = false := by simpa using hne
      simp only [List.find?_cons, hb]
      exact ih hmem hnd.2

theorem isWriteTo_writeEvent (chunk : List Byte) (uid : UUID) :
    (BEvent.isWriteTo uid ∘ writeEvent chunk) = fun e => e.1 == uid := by
  funext e
  rfl

/-- The writes of one fan-out that go to a registered id: exactly one, with the chunk. -/
theorem fanOut_filter_registered (p : IntegratedIoWriter_t) (buffer : List Byte) (n : Nat)
    (uid : UUID) (w : Writer) (h : p.writerList.lookup uid = some w) :
    (fanOut p buffer n).filter (BEvent.isWriteTo uid) =
      [writeEvent (buffer.take n) (uid, w)] := by
  rw [fanOut_eq, List.filter_map, isWriteTo_writeEvent,
    filter_key_of_lookup p.writerList.entries uid w p.writerList.nodup h]
  rfl

/-- The writes of one fan-out that go to an id that is not registered: none. -/
theorem fanOut_filter_absent (p : IntegratedIoWriter_t) (buffer : List Byte) (n : Nat)
    (uid : UUID) (h : uid ∉ p.writerList.keys) :
    (fanOut p buffer n).filter (BEvent.isWriteTo uid) = [] := by
  rw [fanOut_eq, List.filter_map, isWriteTo_writeEvent,
    filter_key_none p.writerList.entries uid h]
  rfl

/-- Every event of one fan-out is the write of the chunk to a registered destination. -/
theorem fanOut_mem (p : IntegratedIoWriter_t) (buffer : List Byte) (n : Nat)
    (e : BEvent) (h : e ∈ fanOut p buffer n) :
    ∃ uid w, p.writerList.lookup uid = some w ∧ e = writeEvent (buffer.take n) (uid, w) := by
  rw [fanOut_eq, List.mem_map] at h
  obtain ⟨⟨uid, w⟩, hmem, heq⟩ := h
  exact ⟨uid, w, lookup_of_mem p.writerList uid w hmem, heq.symm⟩

theorem step_writerList (p : IntegratedIoWriter_t) (pc : WPc) :
    (writeBroadCastStep p pc).1.writerList = p.writerList := by
  cases pc <;> simp only [writeBroadCastStep] <;> split <;> rfl

/-- No step of a broadcast task writes to a destination that is not registered. -/
theorem step_events_where (q : UUID → Nat → Bool) (p : IntegratedIoWriter_t) (pc : WPc)
    (hinv : ∀ e ∈ p.writerList.entries, q e.1 e.2.handle = false) :
    (writeBroadCastStep p pc).2.2.filter (BEvent.isWriteWhere q) = [] := by
  cases pc with
  | entry => simp only [writeBroadCastStep]; split <;> rfl
  | flagSeenClear => simp only [writeBroadCastStep]; split <;> rfl
  | loopRead buffer => simp only [writeBroadCastStep]; split <;> rfl
  | loopFanOut buffer n =>
    simp only [writeBroadCastStep]
    rw [fanOut_eq, List.filter_map, List.map_eq_nil_iff, List.filter_eq_nil_iff]
    intro e he
    have := hinv e he
    simpa [writeEvent, BEvent.isWriteWhere] using this
  | returned => rfl
  | panicked => rfl

theorem act_where (q : UUID → Nat → Bool) (s : BSys) (a : BAct)
    (hinv : ∀ e ∈ s.p.writerList.entries, q e.1 e.2.handle = false)
    (ha : a.addsWhere q = false) :
    (s.act a).2.filter (BEvent.isWriteWhere q) = [] ∧
      ∀ e ∈ (s.act a).1.p.writerList.entries, q e.1 e.2.handle = false := by
  unfold BSys.act
  split
  · exact ⟨rfl, hinv⟩
  · cases a with
    | addWriter w uid =>
      refine ⟨rfl, ?_⟩
      intro e he
      simp only [AddWriter, GoMap.insert, List.mem_cons] at he
      rcases he with heq | hmem
      · subst heq
        exact ha
      · exact hinv e (List.mem_filter.mp hmem).1
    | removeWriter uid =>
      refine ⟨rfl, ?_⟩
      intro e he
      simp only [RemoveWriter, GoMap.delete] at he
      exact hinv e (List.mem_filter.mp he).1
    | closeAll => exact ⟨rfl, hinv⟩
    | extWrite bytes =>
      simp only
      split
      · exact ⟨rfl, hinv⟩
      · exact ⟨rfl, hinv⟩
    | step i =>
      simp only
      cases s.tasks.get? i with
      | none => exact ⟨rfl, hinv⟩
      | some pc =>
        refine ⟨step_events_where q s.p pc hinv, ?_⟩
        simp only [step_writerList]
        exact hinv

/-- A schedule that never registers a matching destination never writes to one
if none is registered at its start. -/
theorem run_where (q : UUID → Nat → Bool) (acts : List BAct) (s : BSys)
    (hinv : ∀ e ∈ s.p.writerList.entries, q e.1 e.2.handle = false)
    (hacts : acts.all (fun a => !a.addsWhere q) = true) :
    (s.run acts).2.filter (BEvent.isWriteWhere q) = [] := by
  induction acts generalizing s with
  | nil => rfl
  | cons a rest ih =>
    simp only [List.all_cons, Bool.and_eq_true, Bool.not_eq_true'] at hacts
    have h1 := act_where q s a hinv hacts.1
    simp only [BSys.run, List.filter_append, h1.1, List.nil_append]
    exact ih (s.act a).1 h1.2 hacts.2

theorem delete_entries_where {V : Type} (m : GoMap V) (uid : UUID) :
    ∀ e ∈ (m.delete uid).entries, (e.1 == uid) = false := by
  intro e he
  have := (List.mem_filter.mp he).2
  simpa using this

theorem absent_entries_where {V : Type} (m : GoMap V) (uid : UUID) (h : uid ∉ m.keys) :
    ∀ e ∈ m.entries, (e.1 == uid) = false := by
  intro e he
  simp only [beq_eq_false_iff_ne, ne_eq]
  intro heq
  apply h
  unfold GoMap.keys
  rw [List.mem_map]
  exact ⟨e, he, heq⟩

theorem lookup_delete_ne {V : Type} (m : GoMap V) (uid k : UUID) (h : k ≠ uid) :
    (m.delete uid).lookup k = m.lookup k := by
  unfold GoMap.lookup GoMap.delete
  simp only
  congr 1
  induction m.entries with
  | nil => rfl
  | cons a t ih =>
    by_cases ha : a.1 = uid
    · have hb : (a.1 != uid) = false := by simp [ha]
      have hk : (a.1 == k) = false := by
        simp only [beq_eq_false_iff_ne, ne_eq, ha]
        exact fun hh => h hh.symm
      simp only [List.filter_cons, hb, List.find?_cons, hk]
      exact ih
    · have hb : (a.1 != uid) = true := by simp [ha]
      simp only [List.filter_cons, hb, if_true, List.find?_cons]
      cases (a.1 == k) <;> simp [ih]

theorem lookup_insert_self {V : Type} (m : GoMap V) (uid : UUID) (v : V) :
    (m.insert uid v).lookup uid = some v := by
  simp [GoMap.lookup, GoMap.insert]

theorem delete_of_absent {V : Type} (m : GoMap V) (uid : UUID) (h : uid ∉ m.keys) :
    m.delete uid = m := by
  cases m with
  | mk entries nodup =>
    simp only [GoMap.delete, GoMap.mk.injEq, List.filter_eq_self]
    intro e he
    simp only [bne_iff_ne, ne_eq]
    intro heq
    apply h
    simp only [GoMap.keys, List.mem_map]
    exact ⟨e, he, heq⟩

theorem delete_absent {V : Type} (m : GoMap V) (uid : UUID) : uid ∉ (m.delete uid).keys := by
  intro hmem
  simp only [GoMap.keys, GoMap.delete, List.mem_map] at hmem
  obtain ⟨e, he, heq⟩ := hmem
  have := (List.mem_filter.mp he).2
  simp [heq] at this

/-! ## Lemmas on what is still to be fanned out -/

theorem subperm_of_count (l1 l2 : List Byte) (h : ∀ x, l1.count x ≤ l2.count x) :
    l1.Subperm l2 :=
  List.subperm_ext_iff.mpr (fun x _ => h x)

/-- What a read of the pipe leaves in the buffer and what it leaves on offer
are together what was on offer. -/
theorem Pipe.Read_bytes (p pipe : Pipe) (b b2 : List Byte) (n : Nat) (err : Option IoError)
    (h : p.Read b = some (pipe, b2, n, err)) :
    b2.take n ++ pipe.offerBytes = p.offerBytes := by
  unfold Pipe.Read at h
  split at h
  · cases h
    simp
  · split at h
    · cases h
      simp
    · split at h
      · cases h
      · rename_i who bs hoff
        simp only [copyBytes] at h
        cases h
        have htake : (bs.take (min b.length bs.length) ++ b.drop (min b.length bs.length)).take
            (min b.length bs.length) = bs.take (min b.length bs.length) := by
          rw [List.take_append_of_le_length (by simp)]
          rw [List.take_eq_self_iff]
          simp
        rw [htake]
        simp only [Pipe.offerBytes, hoff]
        by_cases hl : (bs.drop (min b.length bs.length)).isEmpty = true
        · simp only [hl, if_true, List.append_nil]
          have h1 : bs.length ≤ min b.length bs.length := by
            simpa [List.isEmpty_iff] using hl
          exact List.take_of_length_le h1
        · simp only [hl, Bool.false_eq_true, if_false]
          exact List.take_append_drop _ _

theorem count_hand_set (x : Byte) :
    ∀ (l : List WPc) (i : Nat) (t y : WPc), l.get? i = some t →
      ((l.set i y).map handOf).flatten.count x + (handOf t).count x =
        (l.map handOf).flatten.count x + (handOf y).count x := by
  intro l
  induction l with
  | nil =>
    intro i t y h
    simp at h
  | cons a rest ih =>
    intro i t y h
    cases i with
    | zero =>
      simp only [List.get?_cons_zero, Option.some.injEq] at h
      subst h
      simp only [List.set_cons_zero, List.map_cons, List.flatten_cons, List.count_append]
      omega
    | succ j =>
      simp only [List.get?_cons_succ] at h
      have := ih j t y h
      simp only [List.set_cons_succ, List.map_cons, List.flatten_cons, List.count_append]
      omega

theorem bytesTo_append (uid : UUID) (a b : List BEvent) :
    bytesTo uid (a ++ b) = bytesTo uid a ++ bytesTo uid b := by
  simp [bytesTo]

theorem bytesTo_cons (uid : UUID) (e : BEvent) (evs : List BEvent) :
    bytesTo uid (e :: evs) = BEvent.bytesFor uid e ++ bytesTo uid evs := rfl

theorem bytesFor_absent (uid : UUID) (chunk : List Byte) (l : List (UUID × Writer))
    (h : uid ∉ l.map Prod.fst) :
    bytesTo uid (l.map (writeEvent chunk)) = [] := by
  induction l with
  | nil => rfl
  | cons a t ih =>
    simp only [List.map_cons, List.mem_cons, not_or] at h
    have hne : ¬ a.1 = uid := fun heq => h.1 heq.symm
    rw [List.map_cons, bytesTo_cons, ih h.2]
    simp only [writeEvent, BEvent.bytesFor, hne, if_false, List.append_nil]

/-- One fan-out writes to a given id at most the chunk. -/
theorem bytesTo_fanOut_count (x : Byte) (uid : UUID) (p : IntegratedIoWriter_t)
    (b : List Byte) (n : Nat) :
    (bytesTo uid (fanOut p b n)).count x ≤ (b.take n).count x := by
  rw [fanOut_eq]
  have hnd := p.writerList.nodup
  generalize p.writerList.entries = l at hnd
  induction l with
  | nil => simp [bytesTo]
  | cons a t ih =>
    simp only [List.map_cons, List.nodup_cons] at hnd
    rw [List.map_cons, bytesTo_cons, List.count_append]
    by_cases ha : a.1 = uid
    · have habs : uid ∉ t.map Prod.fst := by
        rw [← ha]
        exact hnd.1
      rw [bytesFor_absent uid (b.take n) t habs]
      simp only [writeEvent, BEvent.bytesFor, ha, if_true, List.count_nil, Nat.add_zero]
      exact Nat.le_refl _
    · have := ih hnd.2
      simp only [writeEvent, BEvent.bytesFor, ha, if_false, List.count_nil, Nat.zero_add]
      exact this

/-- One step of a broadcast task hands out no byte that was not in its hand
or on offer in the pipe. -/
theorem step_count (x : Byte) (uid : UUID) (p : IntegratedIoWriter_t) (pc : WPc) :
    (bytesTo uid (writeBroadCastStep p pc).2.2).count x +
        (handOf (writeBroadCastStep p pc).2.1).count x +
        (writeBroadCastStep p pc).1.pipe.offerBytes.count x ≤
      (handOf pc).count x + p.pipe.offerBytes.count x := by
  cases pc with
  | entry =>
    simp only [writeBroadCastStep]
    split <;> simp [bytesTo, handOf]
  | flagSeenClear =>
    simp only [writeBroadCastStep]
    split <;> simp [bytesTo, handOf]
  | loopRead buffer =>
    simp only [writeBroadCastStep]
    cases hr : p.pipe.Read buffer with
    | none => simp [bytesTo, handOf]
    | some res =>
      obtain ⟨pipe, b2, n, err⟩ := res
      have hb := Pipe.Read_bytes p.pipe pipe buffer b2 n err hr
      simp only [bytesTo, handOf, List.map_cons, List.map_nil, BEvent.bytesFor,
        List.flatten_cons, List.flatten_nil, List.append_nil, List.count_nil, Nat.zero_add]
      rw [← hb, List.count_append]
  | loopFanOut buffer n =>
    simp only [writeBroadCastStep, handOf, List.count_nil, Nat.add_zero]
    have := bytesTo_fanOut_count x uid p buffer n
    omega
  | returned => simp [writeBroadCastStep, bytesTo, handOf]
  | panicked => simp [writeBroadCastStep, bytesTo, handOf]

/-- No action makes a byte appear: what an action writes to a destination and
what is still to be fanned out after it were still to be fanned out before
it or are handed in by it. -/
theorem BSys.act_count (x : Byte) (uid : UUID) (s : BSys) (a : BAct) :
    (bytesTo uid (s.act a).2).count x + (s.act a).1.undelivered.count x ≤
      s.undelivered.count x + a.input.count x := by
  unfold BSys.act
  split
  · simp [bytesTo]
  · cases a with
    | addWriter w uid2 =>
      simp [bytesTo, BSys.undelivered, AddWriter, handOf, BAct.input]
    | removeWriter uid2 =>
      simp [bytesTo, BSys.undelivered, RemoveWriter, BAct.input]
    | closeAll =>
      simp [bytesTo, BSys.undelivered, CloseAllWriter, Pipe.CloseWriter, Pipe.offerBytes,
        BAct.input]
    | extWrite bytes =>
      simp only
      cases hw : s.p.pipe.WriteStart 0 bytes with
      | failed err => simp [bytesTo]
      | busy => simp [bytesTo]
      | offered pipe =>
        unfold Pipe.WriteStart at hw
        split at hw
        · cases hw
        · split at hw
          · cases hw
          · rename_i hoff
            cases hw
            simp [bytesTo, BSys.undelivered, Pipe.offerBytes, hoff, BAct.input]
    | step i =>
      simp only
      cases hg : s.tasks.get? i with
      | none => simp [bytesTo, BAct.input]
      | some pc =>
        have h1 := step_count x uid s.p pc
        have h2 := count_hand_set x s.tasks i pc (writeBroadCastStep s.p pc).2.1 hg
        simp only [BSys.undelivered, List.count_append, BAct.input, List.count_nil,
          Nat.add_zero]
        omega

theorem BSys.run_count (x : Byte) (uid : UUID) (acts : List BAct) (s : BSys) :
    (bytesTo uid (s.run acts).2).count x + (s.run acts).1.undelivered.count x ≤
      s.undelivered.count x + (inputOf acts).count x := by
  induction acts generalizing s with
  | nil => simp [BSys.run, bytesTo, inputOf]
  | cons a rest ih =>
    have h1 := BSys.act_count x uid s a
    have h2 := ih (s.act a).1
    simp only [BSys.run, bytesTo_append, List.count_append, inputOf, List.map_cons,
      List.flatten_cons] at h2 ⊢
    omega

/-- The bytes a destination is written during a schedule are, each as often
as it occurs, among the bytes that were still to be fanned out at its start
and the bytes handed to the exposed end during it. -/
theorem BSys.run_subperm (uid : UUID) (acts : List BAct) (s : BSys) :
    (bytesTo uid (s.run acts).2).Subperm (s.undelivered ++ inputOf acts) := by
  apply subperm_of_count
  intro x
  have := BSys.run_count x uid acts s
  rw [List.count_append]
  omega

theorem BSys.act_halted (s : BSys) (a : BAct) (h : s.crashed = true) : s.act a = (s, []) := by
  unfold BSys.act
  rw [if_pos h]

theorem BSys.run_halted (acts : List BAct) (s : BSys) (h : s.crashed = true) :
    s.run acts = (s, []) := by
  induction acts with
  | nil => rfl
  | cons a rest ih =>
    simp only [BSys.run, BSys.act_halted s a h, ih]
    rfl

/-! ## Lemmas on the forwarding task -/

theorem copyBytes_take (dst src : List Byte) :
    (copyBytes dst src).1.take (copyBytes dst src).2 = src.take (min dst.length src.length) := by
  simp only [copyBytes]
  rw [List.take_append_of_le_length (by simp)]
  rw [List.take_eq_self_iff]
  simp

theorem copyBytes_length (dst src : List Byte) :
    (copyBytes dst src).1.length = dst.length := by
  simp only [copyBytes, List.length_append, List.length_take, List.length_drop]
  omega

/-- The bytes a read leaves in the buffer followed by what the source still
yields are what the source yielded before the read. -/
theorem Reader.Read_flatten (r : Reader) (buffer : List Byte) :
    (r.Read buffer).2.1.take (r.Read buffer).2.2.1 ++ (r.Read buffer).1.chunks.flatten =
      r.chunks.flatten := by
  unfold Reader.Read
  cases hc : r.chunks with
  | nil => simp [hc]
  | cons c rest =>
    simp only [copyBytes_take]
    by_cases hl : (c.drop (copyBytes buffer c).2).isEmpty = true
    · simp only [hl, if_true, List.flatten_cons]
      have h1 : c.length ≤ min buffer.length c.length := by
        simpa [copyBytes, List.isEmpty_iff] using hl
      rw [List.take_of_length_le h1]
    · simp only [hl, List.flatten_cons]
      simp only [copyBytes, Bool.false_eq_true, if_false, List.flatten_cons]
      rw [← List.append_assoc, List.take_append_drop]

theorem Reader.Read_length (r : Reader) (buffer : List Byte) :
    (r.Read buffer).2.1.length = buffer.length := by
  unfold Reader.Read
  cases hc : r.chunks with
  | nil => rfl
  | cons c rest => exact copyBytes_length buffer c

/-- With a non-empty buffer every read of a source that still has a chunk
brings it closer to exhaustion. -/
theorem Reader.Read_readsLeft (r : Reader) (buffer : List Byte) (hb : 0 < buffer.length) :
    readsLeft (r.Read buffer).1 ≤ readsLeft r - 1 := by
  unfold Reader.Read readsLeft
  cases hc : r.chunks with
  | nil => simp [hc]
  | cons c rest =>
    by_cases hl : (c.drop (copyBytes buffer c).2).isEmpty = true
    · simp only [hl, if_true, List.flatten_cons, List.length_append, List.length_cons]
      omega
    · simp only [hl, Bool.false_eq_true, if_false, List.flatten_cons, List.length_append,
        List.length_cons, List.length_drop]
      have h1 : ¬ c.length ≤ min buffer.length c.length := by
        simpa [copyBytes, List.isEmpty_iff] using hl
      simp only [copyBytes]
      omega

theorem readStep_readerList (who : Nat) (p : IntegratedIoReader_t) (t : ReadTask) :
    (readBroadCastStep who p t).1.readerList = p.readerList ∧
      (readBroadCastStep who p t).1.bufferSize = p.bufferSize ∧
      (readBroadCastStep who p t).2.1.Uid = t.Uid := by
  unfold readBroadCastStep
  split <;> try split
  all_goals exact ⟨rfl, rfl, rfl⟩

/-- One step of a task keeps the bytes of its source in order: what it holds
and what the source still yields before the step is what it passed to a
write that returned in the step, then what it holds and what the source
still yields after it. -/
theorem readStep_bytes (who : Nat) (p : IntegratedIoReader_t) (t : ReadTask) :
    inHand t.pc ++ t.r.chunks.flatten =
      ((readBroadCastStep who p t).2.2.map localBytes).flatten ++
        (inHand (readBroadCastStep who p t).2.1.pc ++
          (readBroadCastStep who p t).2.1.r.chunks.flatten) := by
  unfold readBroadCastStep
  split
  · rename_i h
    split <;> simp [h, inHand]
  · rename_i buffer h
    split <;> simp [h, inHand]
  · rename_i buffer h
    simp only [h, inHand, List.map_cons, List.map_nil, localBytes, List.flatten_cons,
      List.flatten_nil, List.nil_append]
    exact (Reader.Read_flatten t.r buffer).symm
  · rename_i buffer n h
    split <;> simp [h, inHand, localBytes]
  · rename_i buffer n h
    split <;> simp [h, inHand, localBytes]
  · simp
  · simp

/-- After its entry a task can only panic if the allocation of its buffer fails. -/
theorem readStep_not_panicked (who : Nat) (p : IntegratedIoReader_t) (t : ReadTask)
    (b0 : List Byte) (halloc : makeBytes p.bufferSize = some b0)
    (ht : t.pc.isPanicked = false) :
    (readBroadCastStep who p t).2.1.pc.isPanicked = false := by
  unfold readBroadCastStep
  split
  · simp only [halloc]
    rfl
  · split <;> rfl
  · rfl
  · split
    · rfl
    · exact ht
    · rfl
  · split
    · exact ht
    · rfl
  · exact ht
  · exact ht

theorem any_set_false (l : List ReadTask) (i : Nat) (x : ReadTask)
    (h : l.any (fun t => t.pc.isPanicked) = false) (hx : x.pc.isPanicked = false) :
    (l.set i x).any (fun t => t.pc.isPanicked) = false := by
  rw [List.any_eq_false] at h ⊢
  intro y hy
  rcases List.mem_or_eq_of_mem_set hy with hm | he
  · exact h y hm
  · rw [he]
    simp [hx]

theorem not_panicked_of_get (l : List ReadTask) (i : Nat) (t : ReadTask)
    (h : l.any (fun t => t.pc.isPanicked) = false) (ht : l.get? i = some t) :
    t.pc.isPanicked = false := by
  rw [List.any_eq_false] at h
  have hm : t ∈ l := by
    rw [List.get?_eq_some] at ht
    obtain ⟨hi, he⟩ := ht
    rw [← he]
    exact List.get_mem l i hi
  simpa using h t hm

theorem ASys.act_crashed (s : ASys) (a : AAct) (h : s.crashed = true) :
    s.act a = (s, []) := by
  unfold ASys.act
  rw [if_pos h]

theorem ASys.act_addReader (s : ASys) (r : Reader) (uid : UUID) (hlive : s.crashed = false) :
    s.act (AAct.addReader r uid) =
      ({ s with p := (AddReader s.p r uid).1, tasks := s.tasks ++ [(AddReader s.p r uid).2] },
        []) := by
  unfold ASys.act
  rw [if_neg (by simp [hlive])]

theorem ASys.act_removeReader (s : ASys) (uid : UUID) (hlive : s.crashed = false) :
    s.act (AAct.removeReader uid) = ({ s with p := RemoveReader s.p uid }, []) := by
  unfold ASys.act
  rw [if_neg (by simp [hlive])]

theorem ASys.act_closeAll (s : ASys) (hlive : s.crashed = false) :
    s.act AAct.closeAll = ({ s with p := CloseAllReader s.p }, []) := by
  unfold ASys.act
  rw [if_neg (by simp [hlive])]

theorem ASys.act_extRead_none (s : ASys) (len : Nat)
    (h : s.p.pipe.Read (List.replicate len 0) = none) :
    s.act (AAct.extRead len) = (s, []) := by
  unfold ASys.act
  split
  · rfl
  · simp only [h]

theorem ASys.act_extRead_some (s : ASys) (len : Nat)
    (res : Pipe × List Byte × Nat × Option IoError) (hlive : s.crashed = false)
    (h : s.p.pipe.Read (List.replicate len 0) = some res) :
    s.act (AAct.extRead len) =
      ({ s with p := { s.p with pipe := res.1 },
                consumed := s.consumed ++ consumedPiece s.p.pipe.offer res }, []) := by
  unfold ASys.act
  rw [if_neg (by simp [hlive])]
  simp only [h]

theorem ASys.act_step_some (s : ASys) (i : Nat) (t : ReadTask) (hlive : s.crashed = false)
    (h : s.tasks.get? i = some t) :
    s.act (AAct.step i) =
      ({ s with p := (readBroadCastStep i s.p t).1,
                tasks := s.tasks.set i (readBroadCastStep i s.p t).2.1 },
        (readBroadCastStep i s.p t).2.2.map (fun e => (i, e))) := by
  unfold ASys.act
  rw [if_neg (by simp [hlive])]
  simp only [h]

theorem ASys.act_step_none (s : ASys) (i : Nat) (h : s.tasks.get? i = none) :
    s.act (AAct.step i) = (s, []) := by
  unfold ASys.act
  split
  · rfl
  · simp only [h]

theorem any_append_entry (l : List ReadTask) (x : ReadTask)
    (h : l.any (fun t => t.pc.isPanicked) = false) (hx : x.pc.isPanicked = false) :
    (l ++ [x]).any (fun t => t.pc.isPanicked) = false := by
  rw [List.any_append, h]
  simp [hx]

/-- Where the buffer can be allocated, a process that has not panicked does not panic. -/
theorem ASys.act_not_crashed (s : ASys) (a : AAct) (b0 : List Byte)
    (halloc : makeBytes s.p.bufferSize = some b0) (hlive : s.crashed = false) :
    (s.act a).1.crashed = false ∧ (s.act a).1.p.bufferSize = s.p.bufferSize := by
  cases a with
  | addReader r uid =>
    rw [ASys.act_addReader s r uid hlive]
    exact ⟨any_append_entry s.tasks _ hlive rfl, rfl⟩
  | removeReader uid =>
    rw [ASys.act_removeReader s uid hlive]
    exact ⟨hlive, rfl⟩
  | closeAll =>
    rw [ASys.act_closeAll s hlive]
    exact ⟨hlive, rfl⟩
  | extRead len =>
    cases hr : s.p.pipe.Read (List.replicate len 0) with
    | none =>
      rw [ASys.act_extRead_none s len hr]
      exact ⟨hlive, rfl⟩
    | some res =>
      rw [ASys.act_extRead_some s len res hlive hr]
      exact ⟨hlive, rfl⟩
  | step j =>
    cases hg : s.tasks.get? j with
    | none =>
      rw [ASys.act_step_none s j hg]
      exact ⟨hlive, rfl⟩
    | some tj =>
      rw [ASys.act_step_some s j tj hlive hg]
      refine ⟨?_, (readStep_readerList j s.p tj).2.1⟩
      exact any_set_false s.tasks j _ hlive
        (readStep_not_panicked j s.p tj b0 halloc (not_panicked_of_get s.tasks j tj hlive hg))

theorem ASys.run_not_crashed (acts : List AAct) (s : ASys) (b0 : List Byte)
    (halloc : makeBytes s.p.bufferSize = some b0) (hlive : s.crashed = false) :
    (s.run acts).1.crashed = false ∧ (s.run acts).1.p.bufferSize = s.p.bufferSize := by
  induction acts generalizing s with
  | nil => exact ⟨hlive, rfl⟩
  | cons a rest ih =>
    obtain ⟨h1, h2⟩ := ASys.act_not_crashed s a b0 halloc hlive
    obtain ⟨h3, h4⟩ := ih (s.act a).1 (by rw [h2]; exact halloc) h1
    exact ⟨h3, h4.trans h2⟩

theorem get_set_self (l : List ReadTask) (i : Nat) (t x : ReadTask) (h : l.get? i = some t) :
    (l.set i x).get? i = some x := by
  have hi : i < l.length := by
    rw [List.get?_eq_some] at h
    exact h.1
  simp [List.getElem?_set, hi]

theorem get_set_other (l : List ReadTask) (i j : Nat) (t x : ReadTask) (hj : j ≠ i)
    (h : l.get? i = some t) : (l.set j x).get? i = some t := by
  simp only [List.get?_eq_getElem?] at h ⊢
  rw [List.getElem?_set_ne hj]
  exact h

theorem get_append_left (l : List ReadTask) (i : Nat) (t x : ReadTask) (h : l.get? i = some t) :
    (l ++ [x]).get? i = some t := by
  have hi : i < l.length := by
    rw [List.get?_eq_some] at h
    exact h.1
  simp only [List.get?_eq_getElem?] at h ⊢
  rw [List.getElem?_append_left hi]
  exact h

theorem writtenBy_tag_self (i : Nat) (evs : List TEvent) :
    writtenBy i (evs.map (fun e => (i, e))) = (evs.map localBytes).flatten := by
  simp [writtenBy, pipeBytes, Function.comp_def]

theorem writtenBy_tag_other (i j : Nat) (h : j ≠ i) (evs : List TEvent) :
    writtenBy i (evs.map (fun e => (j, e))) = [] := by
  simp [writtenBy, pipeBytes, Function.comp_def, h]

theorem writtenBy_append (i : Nat) (a b : List (Nat × TEvent)) :
    writtenBy i (a ++ b) = writtenBy i a ++ writtenBy i b := by
  simp [writtenBy]

/-- Whatever happens next, task `i` stays in the system with its id, and the
bytes of its source stay in order. -/
theorem ASys.act_bytes (s : ASys) (a : AAct) (i : Nat) (t : ReadTask)
    (h : s.tasks.get? i = some t) :
    ∃ t2, (s.act a).1.tasks.get? i = some t2 ∧ t2.Uid = t.Uid ∧
      inHand t.pc ++ t.r.chunks.flatten =
        writtenBy i (s.act a).2 ++ (inHand t2.pc ++ t2.r.chunks.flatten) := by
  cases hc : s.crashed with
  | true =>
    rw [ASys.act_crashed s a hc]
    exact ⟨t, h, rfl, rfl⟩
  | false =>
    cases a with
    | addReader r uid =>
      rw [ASys.act_addReader s r uid hc]
      exact ⟨t, get_append_left s.tasks i t _ h, rfl, rfl⟩
    | removeReader uid =>
      rw [ASys.act_removeReader s uid hc]
      exact ⟨t, h, rfl, rfl⟩
    | closeAll =>
      rw [ASys.act_closeAll s hc]
      exact ⟨t, h, rfl, rfl⟩
    | extRead len =>
      cases hr : s.p.pipe.Read (List.replicate len 0) with
      | none =>
        rw [ASys.act_extRead_none s len hr]
        exact ⟨t, h, rfl, rfl⟩
      | some res =>
        rw [ASys.act_extRead_some s len res hc hr]
        exact ⟨t, h, rfl, rfl⟩
    | step j =>
      by_cases hj : j = i
      · subst hj
        rw [ASys.act_step_some s j t hc h]
        refine ⟨(readBroadCastStep j s.p t).2.1, get_set_self s.tasks j t _ h,
          (readStep_readerList j s.p t).2.2, ?_⟩
        rw [writtenBy_tag_self]
        exact readStep_bytes j s.p t
      · cases hg : s.tasks.get? j with
        | none =>
          rw [ASys.act_step_none s j hg]
          exact ⟨t, h, rfl, rfl⟩
        | some tj =>
          rw [ASys.act_step_some s j tj hc hg]
          refine ⟨t, get_set_other s.tasks i j t _ hj h, rfl, ?_⟩
          rw [writtenBy_tag_other i j hj]
          rfl

theorem ASys.run_bytes (acts : List AAct) (s : ASys) (i : Nat) (t : ReadTask)
    (h : s.tasks.get? i = some t) :
    ∃ t2, (s.run acts).1.tasks.get? i = some t2 ∧ t2.Uid = t.Uid ∧
      inHand t.pc ++ t.r.chunks.flatten =
        writtenBy i (s.run acts).2 ++ (inHand t2.pc ++ t2.r.chunks.flatten) := by
  induction acts generalizing s t with
  | nil => exact ⟨t, h, rfl, rfl⟩
  | cons a rest ih =>
    obtain ⟨t1, h1, hu1, hb1⟩ := ASys.act_bytes s a i t h
    obtain ⟨t2, h2, hu2, hb2⟩ := ih (s.act a).1 t1 h1
    refine ⟨t2, h2, hu2.trans hu1, ?_⟩
    simp only [ASys.run, writtenBy_append]
    rw [hb1, hb2, List.append_assoc]

theorem ASys.run_append (a b : List AAct) (s : ASys) :
    s.run (a ++ b) = (((s.run a).1.run b).1, (s.run a).2 ++ ((s.run a).1.run b).2) := by
  induction a generalizing s with
  | nil => simp [ASys.run]
  | cons x rest ih =>
    rw [List.cons_append]
    simp only [ASys.run]
    rw [ih]
    simp only [List.append_assoc]

/-! ## Lemmas on the way of the bytes through the pipe -/

theorem deliveredFrom_append (i : Nat) (a b : List (Nat × List Byte)) :
    deliveredFrom i (a ++ b) = deliveredFrom i a ++ deliveredFrom i b := by
  simp [deliveredFrom]

theorem bool_elim {x : Bool} {q : Prop} (hf : x = false) (h : x = true) : q := by
  rw [hf] at h
  cases h

theorem pendingOf_of_not_held (p : Pipe) (who : Nat) (h : p.heldBy who = false) :
    p.pendingOf who = [] := by
  unfold Pipe.heldBy at h
  unfold Pipe.pendingOf
  split
  · rename_i w b hoff
    simp only [hoff, beq_eq_false_iff_ne, ne_eq] at h
    simp [h]
  · rfl

theorem WriteStart_failed (p : Pipe) (who : Nat) (b : List Byte) (err : IoError)
    (h : p.WriteStart who b = WriteStart.failed err) :
    p.isOpen = false ∧ err = IoError.ErrClosedPipe := by
  unfold Pipe.WriteStart at h
  split at h
  · rename_i hc
    cases h
    refine ⟨?_, rfl⟩
    unfold Pipe.isOpen
    cases hr : p.readClosed <;> cases hw : p.writeClosed <;> simp_all
  · split at h <;> cases h

theorem WriteStart_offered (p pipe : Pipe) (who : Nat) (b : List Byte)
    (h : p.WriteStart who b = WriteStart.offered pipe) :
    p.offer = none ∧ p.isOpen = true ∧ pipe = { p with offer := some (who, b) } := by
  unfold Pipe.WriteStart at h
  split at h
  · cases h
  · rename_i hc
    split at h
    · cases h
    · rename_i hoff
      cases h
      refine ⟨hoff, ?_, rfl⟩
      unfold Pipe.isOpen
      cases hr : p.readClosed <;> cases hw : p.writeClosed <;> simp_all

theorem WriteWait_some (p : Pipe) (who total : Nat) (res : Pipe × Nat × Option IoError)
    (h : p.WriteWait who total = some res) :
    res.1.heldBy who = false ∧ res.1.isOpen = p.isOpen ∧
      (p.isOpen = true → res.1 = p ∧ res.2.1 = total ∧ res.2.2 = none) := by
  unfold Pipe.WriteWait at h
  split at h
  · rename_i hoff
    cases h
    exact ⟨by simp [Pipe.heldBy, hoff], rfl, fun _ => ⟨rfl, rfl, rfl⟩⟩
  · rename_i w left hoff
    split at h
    · split at h
      · rename_i hw hc
        cases h
        refine ⟨by simp [Pipe.heldBy], rfl, ?_⟩
        intro hopen
        unfold Pipe.isOpen at hopen
        cases hr : p.readClosed <;> cases hwc : p.writeClosed <;> simp_all
      · cases h
    · rename_i hw
      cases h
      refine ⟨?_, rfl, fun _ => ⟨rfl, rfl, rfl⟩⟩
      simp [Pipe.heldBy, hoff, hw]

theorem WriteWait_other (p : Pipe) (j i total : Nat) (res : Pipe × Nat × Option IoError)
    (hj : j ≠ i) (h : p.WriteWait j total = some res) :
    res.1.pendingOf i = p.pendingOf i ∧ res.1.heldBy i = p.heldBy i ∧
      res.1.isOpen = p.isOpen := by
  unfold Pipe.WriteWait at h
  split at h
  · cases h
    exact ⟨rfl, rfl, rfl⟩
  · rename_i w left hoff
    split at h
    · split at h
      · rename_i hw hc
        cases h
        subst hw
        refine ⟨?_, ?_, rfl⟩
        · simp [Pipe.pendingOf, hoff, hj]
        · simp [Pipe.heldBy, hoff, hj]
      · cases h
    · cases h
      exact ⟨rfl, rfl, rfl⟩

/-- The step of a task with its own offer: the bytes it is accountable for move
from the source into its hand and from its hand onto offer, and none is lost
while the pipe is open. -/
theorem readStep_flow (who : Nat) (p : IntegratedIoReader_t) (t : ReadTask)
    (hcoh : p.pipe.heldBy who = true → t.pc.isWriting = true) :
    ((readBroadCastStep who p t).1.pipe.heldBy who = true →
        (readBroadCastStep who p t).2.1.pc.isWriting = true) ∧
      (readBroadCastStep who p t).1.pipe.isOpen = p.pipe.isOpen ∧
      (p.pipe.isOpen = true →
        (readBroadCastStep who p t).1.pipe.pendingOf who ++
            (unoffered (readBroadCastStep who p t).2.1.pc ++
              (readBroadCastStep who p t).2.1.r.chunks.flatten) =
          p.pipe.pendingOf who ++ (unoffered t.pc ++ t.r.chunks.flatten)) := by
  obtain ⟨uid, r, pc⟩ := t
  have hfree : pc.isWriting = false → p.pipe.heldBy who = false := by
    intro hw
    cases hh : p.pipe.heldBy who with
    | false => rfl
    | true =>
      have := hcoh hh
      simp only [hw] at this
      cases this
  cases pc with
  | entry =>
    have hf := hfree rfl
    simp only [readBroadCastStep]
    split
    · exact ⟨bool_elim hf, rfl, fun _ => rfl⟩
    · exact ⟨bool_elim hf, rfl, fun _ => rfl⟩
  | check buffer =>
    have hf := hfree rfl
    simp only [readBroadCastStep]
    split
    · exact ⟨bool_elim hf, rfl, fun _ => rfl⟩
    · exact ⟨bool_elim hf, rfl, fun _ => rfl⟩
  | read buffer =>
    have hf := hfree rfl
    simp only [readBroadCastStep]
    refine ⟨bool_elim hf, trivial, fun _ => ?_⟩
    simp only [unoffered, List.nil_append]
    rw [Reader.Read_flatten r buffer]
  | write buffer n =>
    have hf := hfree rfl
    simp only [readBroadCastStep]
    cases hw : p.pipe.WriteStart who (buffer.take n) with
    | failed err =>
      obtain ⟨hclosed, _⟩ := WriteStart_failed _ _ _ _ hw
      refine ⟨bool_elim hf, rfl, fun hopen => ?_⟩
      rw [hclosed] at hopen
      cases hopen
    | busy => exact ⟨bool_elim hf, rfl, fun _ => rfl⟩
    | offered pipe =>
      obtain ⟨hoff, hopen, hpipe⟩ := WriteStart_offered _ _ _ _ hw
      subst hpipe
      refine ⟨fun _ => rfl, ?_, fun _ => ?_⟩
      · simp only [Pipe.isOpen]
      · simp [Pipe.pendingOf, hoff, unoffered]
  | writing buffer n =>
    simp only [readBroadCastStep]
    cases hw : p.pipe.WriteWait who (buffer.take n).length with
    | none => exact ⟨hcoh, rfl, fun _ => rfl⟩
    | some res =>
      obtain ⟨hheld, hsame, hopen⟩ := WriteWait_some _ _ _ _ hw
      refine ⟨bool_elim hheld, hsame, fun ho => ?_⟩
      obtain ⟨hp, _, _⟩ := hopen ho
      simp only [hp, unoffered]
  | exited =>
    have hf := hfree rfl
    exact ⟨bool_elim hf, rfl, fun _ => rfl⟩
  | panicked =>
    have hf := hfree rfl
    exact ⟨bool_elim hf, rfl, fun _ => rfl⟩

/-- The step of another task leaves the offer of task `i` alone. -/
theorem readStep_other (j i : Nat) (hj : j ≠ i) (p : IntegratedIoReader_t) (t : ReadTask) :
    (readBroadCastStep j p t).1.pipe.pendingOf i = p.pipe.pendingOf i ∧
      (readBroadCastStep j p t).1.pipe.heldBy i = p.pipe.heldBy i ∧
      (readBroadCastStep j p t).1.pipe.isOpen = p.pipe.isOpen := by
  obtain ⟨uid, r, pc⟩ := t
  cases pc with
  | entry =>
    simp only [readBroadCastStep]
    split <;> exact ⟨rfl, rfl, rfl⟩
  | check buffer =>
    simp only [readBroadCastStep]
    split <;> exact ⟨rfl, rfl, rfl⟩
  | read buffer => exact ⟨rfl, rfl, rfl⟩
  | write buffer n =>
    simp only [readBroadCastStep]
    cases hw : p.pipe.WriteStart j (buffer.take n) with
    | failed err => exact ⟨rfl, rfl, rfl⟩
    | busy => exact ⟨rfl, rfl, rfl⟩
    | offered pipe =>
      obtain ⟨hoff, hopen, hpipe⟩ := WriteStart_offered _ _ _ _ hw
      subst hpipe
      refine ⟨?_, ?_, ?_⟩
      · simp [Pipe.pendingOf, hoff, hj]
      · simp [Pipe.heldBy, hoff, hj]
      · simp only [Pipe.isOpen]
  | writing buffer n =>
    simp only [readBroadCastStep]
    cases hw : p.pipe.WriteWait j (buffer.take n).length with
    | none => exact ⟨rfl, rfl, rfl⟩
    | some res => exact WriteWait_other _ j i _ res hj hw
  | exited => exact ⟨rfl, rfl, rfl⟩
  | panicked => exact ⟨rfl, rfl, rfl⟩

theorem pendingOf_eq_offerBytes (p : Pipe) (i : Nat) (h : p.heldBy i = true) :
    p.pendingOf i = p.offerBytes := by
  unfold Pipe.heldBy at h
  unfold Pipe.pendingOf Pipe.offerBytes
  split
  · rename_i w b hoff
    simp only [hoff, beq_iff_eq] at h
    simp [h]
  · rfl

/-- A read by the consumer moves bytes of the write under way from the offer
into the record of the consumer; on a closed pipe it moves nothing. -/
theorem Pipe.Read_flow (p : Pipe) (buf : List Byte)
    (res : Pipe × List Byte × Nat × Option IoError) (i : Nat)
    (h : p.Read buf = some res) :
    res.1.isOpen = p.isOpen ∧ (res.1.heldBy i = true → p.heldBy i = true) ∧
      deliveredFrom i (consumedPiece p.offer res) ++ res.1.pendingOf i = p.pendingOf i ∧
      (p.isOpen = false → consumedPiece p.offer res = []) := by
  obtain ⟨pipe, b2, n, err⟩ := res
  have hbytes := Pipe.Read_bytes p pipe buf b2 n err h
  unfold Pipe.Read at h
  split at h
  · rename_i hrc
    cases h
    refine ⟨rfl, fun hh => hh, ?_, fun _ => ?_⟩
    · cases hoff : p.offer with
      | none => simp [consumedPiece, deliveredFrom]
      | some o => simp [consumedPiece, deliveredFrom]
    · cases hoff : p.offer with
      | none => simp [consumedPiece]
      | some o => simp [consumedPiece]
  · split at h
    · cases h
      refine ⟨rfl, fun hh => hh, ?_, fun _ => ?_⟩
      · cases hoff : p.offer with
        | none => simp [consumedPiece, deliveredFrom]
        | some o => simp [consumedPiece, deliveredFrom]
      · cases hoff : p.offer with
        | none => simp [consumedPiece]
        | some o => simp [consumedPiece]
    · rename_i hrc hwc
      split at h
      · cases h
      · rename_i who bs hoff
        have hpipe : pipe.isOpen = p.isOpen ∧
            (pipe.offer = none ∨ ∃ left, pipe.offer = some (who, left)) := by
          cases h
          refine ⟨rfl, ?_⟩
          simp only
          split
          · exact Or.inl rfl
          · exact Or.inr ⟨_, rfl⟩
        have herr : err = none := by
          cases h
          rfl
        subst herr
        refine ⟨hpipe.1, ?_, ?_, ?_⟩
        · intro hh
          rcases hpipe.2 with hn | ⟨left, hl⟩
          · simp [Pipe.heldBy, hn] at hh
          · simp only [Pipe.heldBy, hl] at hh
            simp only [Pipe.heldBy, hoff]
            exact hh
        · by_cases hw : who = i
          · subst hw
            have h1 : pipe.pendingOf who = pipe.offerBytes := by
              rcases hpipe.2 with hn | ⟨left, hl⟩
              · simp [Pipe.pendingOf, Pipe.offerBytes, hn]
              · simp [Pipe.pendingOf, Pipe.offerBytes, hl]
            have h2 : p.pendingOf who = p.offerBytes := by
              simp [Pipe.pendingOf, Pipe.offerBytes, hoff]
            rw [h1, h2, ← hbytes]
            simp [consumedPiece, deliveredFrom, hoff]
          · have h1 : pipe.pendingOf i = [] := by
              rcases hpipe.2 with hn | ⟨left, hl⟩
              · simp [Pipe.pendingOf, hn]
              · simp [Pipe.pendingOf, hl, hw]
            have h2 : p.pendingOf i = [] := by
              simp [Pipe.pendingOf, hoff, hw]
            rw [h1, h2]
            simp [consumedPiece, deliveredFrom, hoff, hw]
        · intro hclosed
          unfold Pipe.isOpen at hclosed
          simp_all

/-- Whatever happens next, the bytes task `i` is accountable for stay the
same while the pipe is open, and once the pipe is closed the consumer gets
no more of them. -/
theorem ASys.act_flow (s : ASys) (a : AAct) (i : Nat) (t : ReadTask)
    (h : s.tasks.get? i = some t)
    (hcoh : s.p.pipe.heldBy i = true → t.pc.isWriting = true) :
    ∃ t2, (s.act a).1.tasks.get? i = some t2 ∧
      ((s.act a).1.p.pipe.heldBy i = true → t2.pc.isWriting = true) ∧
      ((s.act a).1.p.pipe.isOpen = true → s.p.pipe.isOpen = true) ∧
      (s.p.pipe.isOpen = true → (s.act a).1.account i t2 = s.account i t) ∧
      (s.p.pipe.isOpen = false →
        deliveredFrom i (s.act a).1.consumed = deliveredFrom i s.consumed) := by
  cases hc : s.crashed with
  | true =>
    rw [ASys.act_crashed s a hc]
    exact ⟨t, h, hcoh, id, fun _ => rfl, fun _ => rfl⟩
  | false =>
    cases a with
    | addReader r uid =>
      rw [ASys.act_addReader s r uid hc]
      exact ⟨t, get_append_left s.tasks i t _ h, hcoh, id, fun _ => rfl, fun _ => rfl⟩
    | removeReader uid =>
      rw [ASys.act_removeReader s uid hc]
      exact ⟨t, h, hcoh, id, fun _ => rfl, fun _ => rfl⟩
    | closeAll =>
      rw [ASys.act_closeAll s hc]
      refine ⟨t, h, hcoh, ?_, fun _ => rfl, fun _ => rfl⟩
      intro ho
      simp [CloseAllReader, Pipe.CloseReader, Pipe.isOpen] at ho
    | extRead len =>
      cases hr : s.p.pipe.Read (List.replicate len 0) with
      | none =>
        rw [ASys.act_extRead_none s len hr]
        exact ⟨t, h, hcoh, id, fun _ => rfl, fun _ => rfl⟩
      | some res =>
        rw [ASys.act_extRead_some s len res hc hr]
        obtain ⟨hopen, hheld, hmove, hclosed⟩ := Pipe.Read_flow s.p.pipe _ res i hr
        refine ⟨t, h, fun hh => hcoh (hheld hh), ?_, ?_, ?_⟩
        · intro ho
          rw [← hopen]
          exact ho
        · intro _
          simp only [ASys.account, deliveredFrom_append, List.append_assoc]
          rw [← List.append_assoc (deliveredFrom i (consumedPiece s.p.pipe.offer res)), hmove]
        · intro hcl
          simp only [hclosed hcl, List.append_nil]
    | step j =>
      by_cases hj : j = i
      · subst hj
        rw [ASys.act_step_some s j t hc h]
        obtain ⟨hcoh2, hopen, hmove⟩ := readStep_flow j s.p t hcoh
        refine ⟨(readBroadCastStep j s.p t).2.1, get_set_self s.tasks j t _ h, hcoh2, ?_, ?_,
          fun _ => rfl⟩
        · intro ho
          rw [← hopen]
          exact ho
        · intro ho
          simp only [ASys.account]
          rw [hmove ho]
      · cases hg : s.tasks.get? j with
        | none =>
          rw [ASys.act_step_none s j hg]
          exact ⟨t, h, hcoh, id, fun _ => rfl, fun _ => rfl⟩
        | some tj =>
          rw [ASys.act_step_some s j tj hc hg]
          obtain ⟨hpend, hheld, hopen⟩ := readStep_other j i hj s.p tj
          refine ⟨t, get_set_other s.tasks i j t _ hj h, ?_, ?_, ?_, fun _ => rfl⟩
          · intro hh
            apply hcoh
            rw [← hheld]
            exact hh
          · intro ho
            rw [← hopen]
            exact ho
          · intro _
            simp only [ASys.account]
            rw [hpend]

/-- Under every schedule, what the consumer has read of the bytes task `i` is
accountable for is an initial part of them; while the pipe is open none of
them is lost. -/
theorem ASys.run_flow (acts : List AAct) (s : ASys) (i : Nat) (t : ReadTask)
    (h : s.tasks.get? i = some t)
    (hcoh : s.p.pipe.heldBy i = true → t.pc.isWriting = true) :
    ∃ t2, (s.run acts).1.tasks.get? i = some t2 ∧
      ((s.run acts).1.p.pipe.heldBy i = true → t2.pc.isWriting = true) ∧
      ((s.run acts).1.p.pipe.isOpen = true → s.p.pipe.isOpen = true) ∧
      ((s.run acts).1.p.pipe.isOpen = true → (s.run acts).1.account i t2 = s.account i t) ∧
      (s.p.pipe.isOpen = false →
        deliveredFrom i (s.run acts).1.consumed = deliveredFrom i s.consumed) ∧
      ∃ rest, s.account i t = deliveredFrom i (s.run acts).1.consumed ++ rest := by
  induction acts generalizing s t with
  | nil => exact ⟨t, h, hcoh, id, fun _ => rfl, fun _ => rfl, _, rfl⟩
  | cons a rest ih =>
    obtain ⟨t1, h1, hcoh1, hopen1, hacc1, hcl1⟩ := ASys.act_flow s a i t h hcoh
    obtain ⟨t2, h2, hcoh2, hopen2, hacc2, hcl2, tail, htail⟩ := ih (s.act a).1 t1 h1 hcoh1
    refine ⟨t2, h2, hcoh2, fun ho => hopen1 (hopen2 ho), ?_, ?_, ?_⟩
    · intro ho
      have hs := hopen1 (hopen2 ho)
      show ((s.act a).1.run rest).1.account i t2 = s.account i t
      rw [hacc2 ho, hacc1 hs]
    · intro hcl
      have hcl' : (s.act a).1.p.pipe.isOpen = false := by
        cases ho : (s.act a).1.p.pipe.isOpen with
        | false => rfl
        | true => exact bool_elim hcl (hopen1 ho)
      show deliveredFrom i ((s.act a).1.run rest).1.consumed = deliveredFrom i s.consumed
      rw [hcl2 hcl', hcl1 hcl]
    · cases ho : s.p.pipe.isOpen with
      | true =>
        refine ⟨tail, ?_⟩
        show s.account i t = deliveredFrom i ((s.act a).1.run rest).1.consumed ++ tail
        rw [← hacc1 ho, htail]
      | false =>
        have hcl' : (s.act a).1.p.pipe.isOpen = false := by
          cases ho2 : (s.act a).1.p.pipe.isOpen with
          | false => rfl
          | true => exact bool_elim ho (hopen1 ho2)
        refine ⟨s.p.pipe.pendingOf i ++ (unoffered t.pc ++ t.r.chunks.flatten), ?_⟩
        show s.account i t = deliveredFrom i ((s.act a).1.run rest).1.consumed ++ _
        rw [hcl2 hcl', hcl1 ho]
        rfl

/-! ## Lemmas on the uninterrupted run of one task -/

theorem readStep_check_present (who : Nat) (p : IntegratedIoReader_t) (uid : UUID)
    (r : Reader) (b : List Byte) (h : Nat) (hreg : p.readerList.lookup uid = some h) :
    readBroadCastStep who p ⟨uid, r, RPc.check b⟩ = (p, ⟨uid, r, RPc.read b⟩, []) := by
  simp only [readBroadCastStep, hreg]

theorem WriteStart_free (p : Pipe) (who : Nat) (b : List Byte)
    (hoff : p.offer = none) (hopen : p.isOpen = true) :
    p.WriteStart who b = WriteStart.offered { p with offer := some (who, b) } := by
  unfold Pipe.isOpen at hopen
  have hr : p.readClosed = false := by
    cases h : p.readClosed <;> simp_all
  have hw : p.writeClosed = false := by
    cases h : p.writeClosed <;> simp_all
  simp [Pipe.WriteStart, hr, hw, hoff]

theorem WriteStart_closed (p : Pipe) (who : Nat) (b : List Byte)
    (hclosed : p.isOpen = false) :
    p.WriteStart who b = WriteStart.failed IoError.ErrClosedPipe := by
  unfold Pipe.isOpen at hclosed
  unfold Pipe.WriteStart
  cases hr : p.readClosed <;> cases hw : p.writeClosed <;> simp_all

/-- A read with a buffer at least as long as what is on offer takes all of it. -/
theorem Pipe.Read_all (p : Pipe) (who len : Nat) (c : List Byte)
    (hoff : p.offer = some (who, c)) (hopen : p.isOpen = true) (hlen : c.length ≤ len) :
    ∃ buf, p.Read (List.replicate len 0) =
      some ({ p with offer := none }, buf, c.length, none) ∧ buf.take c.length = c := by
  unfold Pipe.isOpen at hopen
  have hr : p.readClosed = false := by
    cases h : p.readClosed <;> simp_all
  have hw : p.writeClosed = false := by
    cases h : p.writeClosed <;> simp_all
  have hmin : min len c.length = c.length := Nat.min_eq_right hlen
  refine ⟨c ++ (List.replicate len (0 : Byte)).drop c.length, ?_, ?_⟩
  · simp [Pipe.Read, hr, hw, hoff, copyBytes, hmin]
  · simp

/-- The result of a step of task `i` carried over to the system. -/
theorem ASys.step_result (s : ASys) (i : Nat) (t t2 : ReadTask) (p2 : IntegratedIoReader_t)
    (evs : List TEvent) (hlive : s.crashed = false) (hget : s.tasks.get? i = some t)
    (hstep : readBroadCastStep i s.p t = (p2, t2, evs))
    (hnp : t2.pc.isPanicked = false) :
    (s.act (AAct.step i)).1.p = p2 ∧ (s.act (AAct.step i)).1.tasks.get? i = some t2 ∧
      (s.act (AAct.step i)).1.crashed = false ∧
      (s.act (AAct.step i)).1.consumed = s.consumed ∧
      (s.act (AAct.step i)).2 = evs.map (fun e => (i, e)) := by
  rw [ASys.act_step_some s i t hlive hget, hstep]
  exact ⟨rfl, get_set_self s.tasks i t _ hget, any_set_false s.tasks i _ hlive hnp, rfl, rfl⟩

theorem ASys.run_cons (s : ASys) (a : AAct) (rest : List AAct) :
    s.run (a :: rest) = (((s.act a).1.run rest).1, (s.act a).2 ++ ((s.act a).1.run rest).2) :=
  rfl

/-- One uninterrupted iteration of a registered task on an open pipe with a
consumer whose buffer holds a whole chunk: the task ends at its next check
with the source one read further, and the pipe is free again. -/
theorem ASys.solo_iteration (s : ASys) (i len : Nat) (uid : UUID) (r : Reader)
    (b : List Byte) (h : Nat) (hlive : s.crashed = false)
    (ht : s.tasks.get? i = some ⟨uid, r, RPc.check b⟩)
    (hreg : s.p.readerList.lookup uid = some h)
    (hoff : s.p.pipe.offer = none) (hopen : s.p.pipe.isOpen = true)
    (hlen : b.length ≤ len) :
    (s.run (soloIteration i len)).1.crashed = false ∧
      (s.run (soloIteration i len)).1.tasks.get? i =
        some ⟨uid, (r.Read b).1, RPc.check (r.Read b).2.1⟩ ∧
      (s.run (soloIteration i len)).1.p.readerList = s.p.readerList ∧
      (s.run (soloIteration i len)).1.p.pipe.offer = none ∧
      (s.run (soloIteration i len)).1.p.pipe.isOpen = true := by
  -- membership check
  obtain ⟨hp1, hg1, hl1, _, _⟩ := ASys.step_result s i _ _ _ _ hlive ht
    (readStep_check_present i s.p uid r b h hreg) rfl
  -- read of the source
  obtain ⟨hp2, hg2, hl2, _, _⟩ := ASys.step_result (s.act (AAct.step i)).1 i _
    ⟨uid, (r.Read b).1, RPc.write (r.Read b).2.1 (r.Read b).2.2.1⟩
    (s.act (AAct.step i)).1.p [TEvent.srcRead (r.Read b).2.2.1 (r.Read b).2.2.2] hl1 hg1 rfl rfl
  -- beginning of the write
  have hoff2 : ((s.act (AAct.step i)).1.act (AAct.step i)).1.p.pipe.offer = none := by
    rw [hp2, hp1]
    exact hoff
  have hopen2 : ((s.act (AAct.step i)).1.act (AAct.step i)).1.p.pipe.isOpen = true := by
    rw [hp2, hp1]
    exact hopen
  have hstep3 : readBroadCastStep i ((s.act (AAct.step i)).1.act (AAct.step i)).1.p
      ⟨uid, (r.Read b).1, RPc.write (r.Read b).2.1 (r.Read b).2.2.1⟩ =
      ({ ((s.act (AAct.step i)).1.act (AAct.step i)).1.p with
          pipe := { ((s.act (AAct.step i)).1.act (AAct.step i)).1.p.pipe with
            offer := some (i, (r.Read b).2.1.take (r.Read b).2.2.1) } },
        ⟨uid, (r.Read b).1, RPc.writing (r.Read b).2.1 (r.Read b).2.2.1⟩, []) := by
    simp only [readBroadCastStep, WriteStart_free _ i _ hoff2 hopen2]
  obtain ⟨hp3, hg3, hl3, _, _⟩ := ASys.step_result _ i _ _ _ _ hl2 hg2 hstep3 rfl
  -- read by the consumer
  have hoff3 : (((s.act (AAct.step i)).1.act (AAct.step i)).1.act (AAct.step i)).1.p.pipe.offer =
      some (i, (r.Read b).2.1.take (r.Read b).2.2.1) := by
    rw [hp3]
  have hopen3 : (((s.act (AAct.step i)).1.act (AAct.step i)).1.act
      (AAct.step i)).1.p.pipe.isOpen = true := by
    rw [hp3]
    exact hopen2
  have hclen : ((r.Read b).2.1.take (r.Read b).2.2.1).length ≤ len := by
    rw [List.length_take, Reader.Read_length]
    omega
  obtain ⟨buf, hread, _⟩ := Pipe.Read_all _ i len _ hoff3 hopen3 hclen
  have hact4 := ASys.act_extRead_some _ len _ hl3 hread
  -- end of the write
  have hl4 : ((((s.act (AAct.step i)).1.act (AAct.step i)).1.act (AAct.step i)).1.act
      (AAct.extRead len)).1.crashed = false := by
    rw [hact4]
    exact hl3
  have hg4 : ((((s.act (AAct.step i)).1.act (AAct.step i)).1.act (AAct.step i)).1.act
      (AAct.extRead len)).1.tasks.get? i =
      some ⟨uid, (r.Read b).1, RPc.writing (r.Read b).2.1 (r.Read b).2.2.1⟩ := by
    rw [hact4]
    exact hg3
  have hoff4 : ((((s.act (AAct.step i)).1.act (AAct.step i)).1.act (AAct.step i)).1.act
      (AAct.extRead len)).1.p.pipe.offer = none := by
    rw [hact4]
  have hopen4 : ((((s.act (AAct.step i)).1.act (AAct.step i)).1.act (AAct.step i)).1.act
      (AAct.extRead len)).1.p.pipe.isOpen = true := by
    rw [hact4]
    exact hopen3
  have hrl4 : ((((s.act (AAct.step i)).1.act (AAct.step i)).1.act (AAct.step i)).1.act
      (AAct.extRead len)).1.p.readerList = s.p.readerList := by
    rw [hact4]
    show (((s.act (AAct.step i)).1.act (AAct.step i)).1.act (AAct.step i)).1.p.readerList = _
    rw [hp3]
    show ((s.act (AAct.step i)).1.act (AAct.step i)).1.p.readerList = _
    rw [hp2, hp1]
  have hstep5 : readBroadCastStep i ((((s.act (AAct.step i)).1.act (AAct.step i)).1.act
      (AAct.step i)).1.act (AAct.extRead len)).1.p
      ⟨uid, (r.Read b).1, RPc.writing (r.Read b).2.1 (r.Read b).2.2.1⟩ =
      (((((s.act (AAct.step i)).1.act (AAct.step i)).1.act (AAct.step i)).1.act
          (AAct.extRead len)).1.p,
        ⟨uid, (r.Read b).1, RPc.check (r.Read b).2.1⟩,
        [TEvent.pipeWrite ((r.Read b).2.1.take (r.Read b).2.2.1)
          ((r.Read b).2.1.take (r.Read b).2.2.1).length none]) := by
    simp only [readBroadCastStep, Pipe.WriteWait, hoff4]
  obtain ⟨hp5, hg5, hl5, _, _⟩ := ASys.step_result _ i _ _ _ _ hl4 hg4 hstep5 rfl
  simp only [soloIteration, ASys.run]
  refine ⟨hl5, hg5, ?_, ?_, ?_⟩
  · rw [hp5]
    exact hrl4
  · rw [hp5]
    exact hoff4
  · rw [hp5]
    exact hopen4

theorem ASys.solo_exhaust (i len : Nat) (uid : UUID) (h : Nat) :
    ∀ (m : Nat) (s : ASys) (r : Reader) (b : List Byte),
      s.crashed = false → s.tasks.get? i = some ⟨uid, r, RPc.check b⟩ →
      s.p.readerList.lookup uid = some h → s.p.pipe.offer = none →
      s.p.pipe.isOpen = true → 0 < b.length → b.length ≤ len → readsLeft r ≤ m →
      ∃ r2 b2, (s.run (List.replicate m (soloIteration i len)).flatten).1.tasks.get? i =
          some ⟨uid, r2, RPc.check b2⟩ ∧ r2.chunks = [] ∧
        (s.run (List.replicate m (soloIteration i len)).flatten).1.p.pipe.offer = none ∧
        (s.run (List.replicate m (soloIteration i len)).flatten).1.p.pipe.isOpen = true := by
  intro m
  induction m with
  | zero =>
    intro s r b _ ht _ hoff hopen _ _ hm
    refine ⟨r, b, ht, ?_, hoff, hopen⟩
    unfold readsLeft at hm
    exact List.length_eq_zero.mp (by omega)
  | succ m ih =>
    intro s r b hlive ht hreg hoff hopen hb hlen hm
    rw [List.replicate_succ, List.flatten_cons, ASys.run_append]
    obtain ⟨hl, hg, hrl, ho, hop⟩ :=
      ASys.solo_iteration s i len uid r b h hlive ht hreg hoff hopen hlen
    have hb2 : 0 < (r.Read b).2.1.length := by
      rw [Reader.Read_length]
      exact hb
    have hlen2 : (r.Read b).2.1.length ≤ len := by
      rw [Reader.Read_length]
      exact hlen
    have hm2 : readsLeft (r.Read b).1 ≤ m := by
      have := Reader.Read_readsLeft r b hb
      omega
    exact ih _ (r.Read b).1 (r.Read b).2.1 hl hg (by rw [hrl]; exact hreg) ho hop hb2 hlen2 hm2

/-- The n bytes a read leaves in the buffer are the next n bytes of the source. -/
theorem Reader.Read_take (r : Reader) (buffer : List Byte) :
    (r.Read buffer).2.1.take (r.Read buffer).2.2.1 =
      r.chunks.flatten.take (r.Read buffer).2.2.1 := by
  have hlen : ((r.Read buffer).2.1.take (r.Read buffer).2.2.1).length = (r.Read buffer).2.2.1 := by
    rw [List.length_take, Reader.Read_length]
    unfold Reader.Read
    cases hc : r.chunks with
    | nil => simp
    | cons c rest =>
      simp only [copyBytes]
      omega
  rw [← Reader.Read_flatten r buffer]
  exact (List.take_left' hlen).symm

/-- A read of a source takes at most a buffer full. -/
theorem Reader.Read_count_le (r : Reader) (buffer : List Byte) :
    (r.Read buffer).2.2.1 ≤ buffer.length := by
  unfold Reader.Read
  cases hc : r.chunks with
  | nil => simp
  | cons c rest =>
    simp only [copyBytes]
    omega

theorem BSys.run_loop_step (s : BSys) (i : Nat) (pc : WPc) (rest : List BAct)
    (hlive : s.crashed = false) (h : s.tasks.get? i = some pc) :
    s.run (BAct.step i :: rest) =
      ((BSys.run ⟨(writeBroadCastStep s.p pc).1, s.tasks.set i (writeBroadCastStep s.p pc).2.1⟩ rest).1,
        (writeBroadCastStep s.p pc).2.2 ++
          (BSys.run ⟨(writeBroadCastStep s.p pc).1,
            s.tasks.set i (writeBroadCastStep s.p pc).2.1⟩ rest).2) := by
  simp only [BSys.run, BSys.act, hlive, Bool.false_eq_true, if_false, h]

/-- A task leaves its loop only at a membership check that finds its id absent. -/
theorem readStep_exit_only (who : Nat) (p : IntegratedIoReader_t) (t : ReadTask)
    (h : (readBroadCastStep who p t).2.1.pc = RPc.exited) :
    t.pc = RPc.exited ∨ ∃ b, t.pc = RPc.check b ∧ p.readerList.lookup t.Uid = none := by
  obtain ⟨uid, r, pc⟩ := t
  cases pc with
  | entry =>
    simp only [readBroadCastStep] at h
    split at h <;> cases h
  | check buffer =>
    cases hl : p.readerList.lookup uid with
    | none => exact Or.inr ⟨buffer, rfl, rfl⟩
    | some v =>
      simp only [readBroadCastStep, hl] at h
      cases h
  | read buffer =>
    simp only [readBroadCastStep] at h
    cases h
  | write buffer n =>
    simp only [readBroadCastStep] at h
    split at h <;> cases h
  | writing buffer n =>
    simp only [readBroadCastStep] at h
    split at h <;> cases h
  | exited => exact Or.inl rfl
  | panicked =>
    simp only [readBroadCastStep] at h
    cases h

/-- An invocation of `writeBroadCast` that finds the flag set returns at once:
it reads nothing, writes nothing and leaves the broadcaster as it is. -/
theorem writeBroadCast_started_returns (p : IntegratedIoWriter_t)
    (h : p.isWriteBroadCastExist = true) :
    writeBroadCastStep p WPc.entry = (p, WPc.returned, []) ∧
      writeBroadCastStep p WPc.returned = (p, WPc.returned, []) := by
  simp [writeBroadCastStep, h]

/-- C1. Fan-out completeness. When a read of the internal pipe returns the
count `n` and leaves `buffer` in the scratch buffer, the read step hands
exactly that buffer and count to the fan-out; the fan-out, in whatever state
`q` the broadcaster is when the guard is taken, writes the chunk
`buffer[:n]` exactly once to every destination registered in `q`, writes
nothing else, and leaves the broadcaster as it was. -/
theorem fanOut_completeness (p q : IntegratedIoWriter_t) (buffer0 buffer : List Byte)
    (pipe : Pipe) (n : Nat) (err : Option IoError)
    (hread : p.pipe.Read buffer0 = some (pipe, buffer, n, err)) :
    writeBroadCastStep p (WPc.loopRead buffer0) =
        ({ p with pipe := pipe }, WPc.loopFanOut buffer n, [BEvent.pipeRead n err]) ∧
      (writeBroadCastStep q (WPc.loopFanOut buffer n)).1 = q ∧
      (∀ uid w, q.writerList.lookup uid = some w →
        (writeBroadCastStep q (WPc.loopFanOut buffer n)).2.2.filter (BEvent.isWriteTo uid) =
          [BEvent.destWrite uid w.handle (buffer.take n)
            (w.Write (buffer.take n)).1 (w.Write (buffer.take n)).2]) ∧
      (∀ e ∈ (writeBroadCastStep q (WPc.loopFanOut buffer n)).2.2,
        ∃ uid w, q.writerList.lookup uid = some w ∧
          e = BEvent.destWrite uid w.handle (buffer.take n)
            (w.Write (buffer.take n)).1 (w.Write (buffer.take n)).2) := by
  refine ⟨?_, rfl, ?_, ?_⟩
  · simp only [writeBroadCastStep, hread]
  · intro uid w hl
    exact fanOut_filter_registered q buffer n uid w hl
  · intro e he
    exact fanOut_mem q buffer n e he

/-- Witness of C1: "hello" is on offer, D1 and D2 are registered; the
iteration reads 5 bytes and D2 gets one write of "hello". -/
theorem fanOut_completeness_witness :
    bcastHello.p.pipe.Read (List.replicate 8 0) =
        some (Pipe.create, hello ++ [0, 0, 0], 5, none) ∧
      (writeBroadCastStep bcastTwo.p (WPc.loopFanOut (hello ++ [0, 0, 0]) 5)).2.2.filter
        (BEvent.isWriteTo 2) = [BEvent.destWrite 2 20 hello 5 none] :=
  ⟨by decide,
    (fanOut_completeness bcastHello.p bcastTwo.p
      (List.replicate 8 0) (hello ++ [0, 0, 0]) Pipe.create 5 none (by decide)).2.2.1
        2 (okWriter 20) rfl⟩

/-- C2. Late join and early leave. After `RemoveWriter(uid)`, whatever happens
next short of registering `uid` again, no write goes to `uid`, while the
fan-out still writes the chunk once to every other registered destination.
A destination that is not registered when a schedule starts, and is not added
during it, receives none of the chunks dispatched in it, be it identified by
its id or by its stream; once added under `uid`, what a fan-out writes to it
is the chunk of that fan-out. No chunk is dispatched twice: under every
schedule the bytes written to any one destination, with those still to be
fanned out at its end, are, each as often as it occurs, among the bytes that
were in the hands of the tasks or on offer in the pipe when the schedule
started and the bytes handed to the exposed end during it. A chunk that was
fanned out before is not among them: the fan-out empties the hand of the
task, and the read before it took the chunk off the pipe. -/
theorem late_join_early_leave (s : BSys) (uid : UUID) (acts : List BAct)
    (buffer : List Byte) (n : Nat)
    (hacts : acts.all (fun a => !a.addsId uid) = true) :
    ((s.act (BAct.removeWriter uid)).1.run acts).2.filter (BEvent.isWriteTo uid) = [] ∧
      (∀ uid2 w, uid2 ≠ uid → s.p.writerList.lookup uid2 = some w →
        (writeBroadCastStep (RemoveWriter s.p uid) (WPc.loopFanOut buffer n)).2.2.filter
          (BEvent.isWriteTo uid2) =
          [BEvent.destWrite uid2 w.handle (buffer.take n)
            (w.Write (buffer.take n)).1 (w.Write (buffer.take n)).2]) ∧
      (uid ∉ s.p.writerList.keys → (s.run acts).2.filter (BEvent.isWriteTo uid) = []) ∧
      (∀ h, (∀ e ∈ s.p.writerList.entries, e.2.handle ≠ h) →
        acts.all (fun a => !a.addsHandle h) = true →
        (s.run acts).2.filter (BEvent.isWriteToHandle h) = []) ∧
      (∀ w, (writeBroadCastStep (AddWriter s.p w uid).1 (WPc.loopFanOut buffer n)).2.2.filter
          (BEvent.isWriteTo uid) =
          [BEvent.destWrite uid w.handle (buffer.take n)
            (w.Write (buffer.take n)).1 (w.Write (buffer.take n)).2]) ∧
      (∀ (q : BSys) (sched : List BAct) (uid2 : UUID),
        (bytesTo uid2 (q.run sched).2 ++ (q.run sched).1.undelivered).Subperm
          (q.undelivered ++ inputOf sched)) ∧
      (∀ (p : IntegratedIoWriter_t) (b : List Byte) (k : Nat),
        handOf (writeBroadCastStep p (WPc.loopFanOut b k)).2.1 = []) ∧
      (∀ (p : IntegratedIoWriter_t) (b b2 : List Byte) (pipe : Pipe) (k : Nat)
          (err : Option IoError), p.pipe.Read b = some (pipe, b2, k, err) →
        (writeBroadCastStep p (WPc.loopRead b)).1.pipe = pipe ∧
          handOf (writeBroadCastStep p (WPc.loopRead b)).2.1 = b2.take k ∧
          b2.take k ++ pipe.offerBytes = p.pipe.offerBytes) := by
  refine ⟨?_, ?_, ?_, ?_, ?_, ?_, ?_, ?_⟩
  · by_cases hc : s.crashed = true
    · have h1 : (s.act (BAct.removeWriter uid)).1 = s := by
        simp only [BSys.act, hc, if_true]
      rw [h1, BSys.run_halted acts s hc]
      rfl
    · have h1 : (s.act (BAct.removeWriter uid)).1 = ⟨RemoveWriter s.p uid, s.tasks⟩ := by
        simp only [BSys.act, hc, Bool.false_eq_true, if_false]
      rw [h1]
      exact run_where (fun u _ => u == uid) acts _
        (delete_entries_where s.p.writerList uid) hacts
  · intro uid2 w hne hl
    apply fanOut_filter_registered
    show (s.p.writerList.delete uid).lookup uid2 = some w
    rw [lookup_delete_ne _ _ _ hne]
    exact hl
  · intro habs
    exact run_where (fun u _ => u == uid) acts s
      (absent_entries_where s.p.writerList uid habs) hacts
  · intro h hinv hadd
    refine run_where (fun _ h2 => h2 == h) acts s ?_ hadd
    intro e he
    simpa using hinv e he
  · intro w
    apply fanOut_filter_registered
    exact lookup_insert_self s.p.writerList uid w
  · intro q sched uid2
    apply subperm_of_count
    intro x
    have := BSys.run_count x uid2 sched q
    simp only [List.count_append] at this ⊢
    omega
  · intro p b k
    rfl
  · intro p b b2 pipe k err hread
    refine ⟨?_, ?_, Pipe.Read_bytes p.pipe pipe b b2 k err hread⟩
    · simp only [writeBroadCastStep, hread]
    · simp only [writeBroadCastStep, hread, handOf]

/-- Witness of C2: D3 is added after "hello" was read and fanned out to D1 and
D2. Nothing is then left to fan out; "world" is written, and what D3 is
written is "world", which is among the bytes handed in after it joined. -/
theorem late_join_early_leave_witness :
    [BAct.step 0, BAct.step 0, BAct.step 2, BAct.extWrite world, BAct.step 0,
        BAct.step 0].all (fun a => !a.addsId 3) = true ∧
      bcastLate.undelivered = [] ∧
      bytesTo 3 (bcastLate.run [BAct.step 0, BAct.step 0, BAct.step 2, BAct.extWrite world,
        BAct.step 0, BAct.step 0]).2 = world ∧
      (bytesTo 3 (bcastLate.run [BAct.step 0, BAct.step 0, BAct.step 2, BAct.extWrite world,
          BAct.step 0, BAct.step 0]).2 ++
        (bcastLate.run [BAct.step 0, BAct.step 0, BAct.step 2, BAct.extWrite world,
          BAct.step 0, BAct.step 0]).1.undelivered).Subperm
        (bcastLate.undelivered ++ inputOf [BAct.step 0, BAct.step 0, BAct.step 2,
          BAct.extWrite world, BAct.step 0, BAct.step 0]) ∧
      ((bcastLate.act (BAct.removeWriter 3)).1.run [BAct.step 0, BAct.step 0, BAct.step 2,
        BAct.extWrite world, BAct.step 0, BAct.step 0]).2.filter (BEvent.isWriteTo 3) = [] :=
  ⟨by decide, by decide, by decide,
    (late_join_early_leave bcastLate 3 [BAct.step 0, BAct.step 0, BAct.step 2,
      BAct.extWrite world, BAct.step 0, BAct.step 0] [] 0 (by decide)).2.2.2.2.2.1 bcastLate
      [BAct.step 0, BAct.step 0, BAct.step 2, BAct.extWrite world, BAct.step 0, BAct.step 0] 3,
    (late_join_early_leave bcastLate 3 [BAct.step 0, BAct.step 0, BAct.step 2,
      BAct.extWrite world, BAct.step 0, BAct.step 0] [] 0 (by decide)).1⟩

/-- The scenario of the late joiner in full: buffer size 8, D1 and D2 added,
"hello" written and fanned out, D3 added, "world" written and fanned out. D3
is written "world" and never "hello". -/
theorem late_join_scenario :
    (bcast0.run [BAct.addWriter (okWriter 10) 1, BAct.addWriter (okWriter 20) 2,
      BAct.step 0, BAct.step 0, BAct.step 1,
      BAct.extWrite hello, BAct.step 0, BAct.step 0,
      BAct.addWriter (okWriter 30) 3, BAct.step 0, BAct.step 0, BAct.step 2,
      BAct.extWrite world, BAct.step 0, BAct.step 0]).2 =
      [BEvent.pipeRead 5 none, BEvent.destWrite 2 20 hello 5 none,
        BEvent.destWrite 1 10 hello 5 none,
        BEvent.pipeRead 5 none, BEvent.destWrite 3 30 world 5 none,
        BEvent.destWrite 2 20 world 5 none, BEvent.destWrite 1 10 world 5 none] := by
  decide

/-- The scenario of the broadcaster in full: buffer size 8, D1 and D2 added,
"hello" written, D2 removed, "world" written. -/
theorem broadcast_scenario :
    (bcast0.run [BAct.addWriter (okWriter 10) 1, BAct.addWriter (okWriter 20) 2,
      BAct.step 0, BAct.step 0, BAct.step 1,
      BAct.extWrite hello, BAct.step 0, BAct.step 0,
      BAct.removeWriter 2,
      BAct.extWrite world, BAct.step 0, BAct.step 0]).2 =
      [BEvent.pipeRead 5 none, BEvent.destWrite 2 20 hello 5 none,
        BEvent.destWrite 1 10 hello 5 none,
        BEvent.pipeRead 5 none, BEvent.destWrite 1 10 world 5 none] := by
  decide

/-- C3. Idempotent removal. Removing an id that is not a key of the membership
mapping returns the component unchanged, for the aggregator and for the
broadcaster; after a removal the id is not a key, so a second removal of the
same id changes nothing. -/
theorem idempotent_removal (p : IntegratedIoReader_t) (q : IntegratedIoWriter_t) (uid : UUID)
    (hp : uid ∉ p.readerList.keys) (hq : uid ∉ q.writerList.keys) :
    RemoveReader p uid = p ∧ RemoveWriter q uid = q ∧
      (∀ p0 : IntegratedIoReader_t, uid ∉ (RemoveReader p0 uid).readerList.keys ∧
        RemoveReader (RemoveReader p0 uid) uid = RemoveReader p0 uid) ∧
      (∀ q0 : IntegratedIoWriter_t, uid ∉ (RemoveWriter q0 uid).writerList.keys ∧
        RemoveWriter (RemoveWriter q0 uid) uid = RemoveWriter q0 uid) := by
  refine ⟨?_, ?_, ?_, ?_⟩
  · simp only [RemoveReader, delete_of_absent p.readerList uid hp]
  · simp only [RemoveWriter, delete_of_absent q.writerList uid hq]
  · intro p0
    refine ⟨delete_absent p0.readerList uid, ?_⟩
    simp only [RemoveReader, delete_of_absent _ uid (delete_absent p0.readerList uid)]
  · intro q0
    refine ⟨delete_absent q0.writerList uid, ?_⟩
    simp only [RemoveWriter, delete_of_absent _ uid (delete_absent q0.writerList uid)]

/-- Witness of C3: id 7 was never added to the aggregator with source 1 nor to
the broadcaster with D1 and D2. -/
theorem idempotent_removal_witness :
    (7 ∉ aggrAbcd.p.readerList.keys ∧ 7 ∉ bcastTwo.p.writerList.keys) ∧
      RemoveReader aggrAbcd.p 7 = aggrAbcd.p ∧ RemoveWriter bcastTwo.p 7 = bcastTwo.p :=
  ⟨⟨by decide, by decide⟩,
    (idempotent_removal aggrAbcd.p bcastTwo.p 7 (by decide) (by decide)).1,
    (idempotent_removal aggrAbcd.p bcastTwo.p 7 (by decide) (by decide)).2.1⟩

/-- C4 fails on the code: a source emitting "ABCD" stays registered and is read
to its end, but `CloseAllReader` was called before the write. The call of
`Write` with "ABCD" returns count 0 and `ErrClosedPipe`, nothing is put on
offer in the pipe, the consumer gets nothing, and the task goes on reading. -/
theorem closed_pipe_drops_chunk :
    (aggrAbcd.run [AAct.step 0, AAct.step 0, AAct.step 0, AAct.closeAll]).2 =
        [(0, TEvent.srcRead 4 none)] ∧
      (aggrAbcdClosed.run (List.replicate 7 (AAct.step 0))).2 =
        [(0, TEvent.pipeWrite abcd 0 (some IoError.ErrClosedPipe)),
          (0, TEvent.srcRead 0 (some IoError.EOF)),
          (0, TEvent.pipeWrite [] 0 (some IoError.ErrClosedPipe)),
          (0, TEvent.srcRead 0 (some IoError.EOF)),
          (0, TEvent.pipeWrite [] 0 (some IoError.ErrClosedPipe))] ∧
      (aggrAbcdClosed.run (List.replicate 7 (AAct.step 0))).1.tasks =
        [⟨1, ⟨1, []⟩, RPc.check abcd⟩] ∧
      (aggrAbcdClosed.run (List.replicate 7 (AAct.step 0))).1.p.readerList.lookup 1 = some 1 ∧
      (aggrAbcdClosed.run (List.replicate 7 (AAct.step 0))).1.p.pipe.offer = none ∧
      (aggrAbcdClosed.run (List.replicate 7 (AAct.step 0))).1.consumed = [] ∧
      deliveredFrom 0 (aggrAbcdClosed.run (List.replicate 7 (AAct.step 0))).1.consumed ≠ abcd := by
  decide

/-- C4 as amended. Take a forwarding task at its entry whose source yields the
chunks `r.chunks`, that is the bytes `r.chunks.flatten`. Under every schedule
the bytes of its writes that the consumer has read from the pipe are an
initial part of the bytes of the source, in order; while the pipe is open
what follows them is exactly what is still on offer, what the task holds and
what the source still yields, so that all bytes have arrived once the source
is exhausted, nothing is held and nothing is on offer. The bytes passed to
the calls of `Write` that have returned, with the chunk held and what the
source still yields, are always the bytes of the source in order. In every
iteration the read takes at most a buffer full, and the chunk passed to
`Write` is the bytes that read took from the source; on an open pipe with no
write under way exactly that chunk is put on offer, on a closed pipe the
call returns count 0 and `ErrClosedPipe` and the pipe is left as it is.
Where the buffer can be allocated and is not empty, the id is registered,
the pipe is open and free and the process has not panicked, a task that
runs uninterrupted with a consumer whose buffer holds a whole chunk delivers
all bytes of the source. -/
theorem order_preservation (s : ASys) (i : Nat) (uid : UUID) (r : Reader) (acts : List AAct)
    (ht : s.tasks.get? i = some ⟨uid, r, RPc.entry⟩)
    (hfree : s.p.pipe.heldBy i = false) :
    (∃ t2 rest, (s.run acts).1.tasks.get? i = some t2 ∧
        deliveredFrom i s.consumed ++ r.chunks.flatten =
          deliveredFrom i (s.run acts).1.consumed ++ rest ∧
        ((s.run acts).1.p.pipe.isOpen = true →
          rest = (s.run acts).1.p.pipe.pendingOf i ++
            (unoffered t2.pc ++ t2.r.chunks.flatten)) ∧
        r.chunks.flatten =
          writtenBy i (s.run acts).2 ++ (inHand t2.pc ++ t2.r.chunks.flatten)) ∧
      (∀ (who : Nat) (p : IntegratedIoReader_t) (t : ReadTask) (b : List Byte),
        t.pc = RPc.read b →
        (readBroadCastStep who p t).2.2 =
            [TEvent.srcRead (t.r.Read b).2.2.1 (t.r.Read b).2.2.2] ∧
          (readBroadCastStep who p t).2.1.pc =
            RPc.write (t.r.Read b).2.1 (t.r.Read b).2.2.1 ∧
          (t.r.Read b).2.2.1 ≤ b.length ∧
          (t.r.Read b).1.chunks.flatten = t.r.chunks.flatten.drop (t.r.Read b).2.2.1 ∧
          (t.r.Read b).2.1.take (t.r.Read b).2.2.1 =
            t.r.chunks.flatten.take (t.r.Read b).2.2.1) ∧
      (∀ (who : Nat) (p : IntegratedIoReader_t) (t : ReadTask) (b : List Byte) (n : Nat),
        t.pc = RPc.write b n →
        (p.pipe.isOpen = true → p.pipe.offer = none →
          (readBroadCastStep who p t).1.pipe.offer = some (who, b.take n) ∧
            (readBroadCastStep who p t).2.2 = []) ∧
        (p.pipe.isOpen = false →
          (readBroadCastStep who p t).1 = p ∧
            (readBroadCastStep who p t).2.2 =
              [TEvent.pipeWrite (b.take n) 0 (some IoError.ErrClosedPipe)])) ∧
      (∀ (h len m : Nat) (b0 : List Byte), s.crashed = false →
        makeBytes s.p.bufferSize = some b0 → 0 < b0.length → b0.length ≤ len →
        s.p.readerList.lookup uid = some h → s.p.pipe.offer = none →
        s.p.pipe.isOpen = true → readsLeft r ≤ m →
        deliveredFrom i (s.run (soloSchedule i len m)).1.consumed =
          deliveredFrom i s.consumed ++ r.chunks.flatten) := by
  have hcoh : s.p.pipe.heldBy i = true →
      (ReadTask.mk uid r RPc.entry).pc.isWriting = true := bool_elim hfree
  have hacc : s.account i ⟨uid, r, RPc.entry⟩ =
      deliveredFrom i s.consumed ++ r.chunks.flatten := by
    simp only [ASys.account, pendingOf_of_not_held _ _ hfree, unoffered, List.nil_append]
  refine ⟨?_, ?_, ?_, ?_⟩
  · obtain ⟨t2, hg, _, _, hopen, _, rest, hrest⟩ := ASys.run_flow acts s i _ ht hcoh
    obtain ⟨t3, hg3, _, hb⟩ := ASys.run_bytes acts s i _ ht
    rw [hg] at hg3
    cases hg3
    rw [hacc] at hrest
    refine ⟨t2, rest, hg, hrest, ?_, hb⟩
    intro ho
    have h1 := hopen ho
    rw [hacc, hrest] at h1
    simp only [ASys.account] at h1
    exact (List.append_cancel_left h1).symm
  · intro who p t b hpc
    obtain ⟨u, r0, pc⟩ := t
    simp only at hpc
    subst hpc
    have hlen := Reader.Read_count_le r0 b
    have htake := Reader.Read_take r0 b
    have hflat := Reader.Read_flatten r0 b
    refine ⟨rfl, rfl, hlen, ?_, htake⟩
    have hl : ((r0.Read b).2.1.take (r0.Read b).2.2.1).length = (r0.Read b).2.2.1 := by
      rw [List.length_take, Reader.Read_length]
      omega
    rw [← hflat, List.drop_left' hl]
  · intro who p t b n hpc
    obtain ⟨u, r0, pc⟩ := t
    simp only at hpc
    subst hpc
    refine ⟨?_, ?_⟩
    · intro hopen hoff
      have hstep : readBroadCastStep who p ⟨u, r0, RPc.write b n⟩ =
          ({ p with pipe := { p.pipe with offer := some (who, b.take n) } },
            ⟨u, r0, RPc.writing b n⟩, []) := by
        simp only [readBroadCastStep, WriteStart_free p.pipe who _ hoff hopen]
      rw [hstep]
      exact ⟨rfl, rfl⟩
    · intro hclosed
      have hstep : readBroadCastStep who p ⟨u, r0, RPc.write b n⟩ =
          (p, ⟨u, r0, RPc.check b⟩,
            [TEvent.pipeWrite (b.take n) 0 (some IoError.ErrClosedPipe)]) := by
        simp only [readBroadCastStep, WriteStart_closed p.pipe who _ hclosed]
      rw [hstep]
      exact ⟨rfl, rfl⟩
  · intro h len m b0 hlive hmk hb0 hlen hreg hoff hopen hm
    have hs0 : readBroadCastStep i s.p ⟨uid, r, RPc.entry⟩ =
        (s.p, ⟨uid, r, RPc.check b0⟩, []) := by
      simp only [readBroadCastStep, hmk]
    obtain ⟨hp1, hg1, hl1, _, _⟩ := ASys.step_result s i _ _ _ _ hlive ht hs0 rfl
    obtain ⟨r2, b2, hfin, hempty, hoffFin, hopenFin⟩ := ASys.solo_exhaust i len uid h m
      (s.act (AAct.step i)).1 r b0 hl1 hg1 (by rw [hp1]; exact hreg) (by rw [hp1]; exact hoff)
      (by rw [hp1]; exact hopen) hb0 hlen hm
    obtain ⟨t2, hg, _, _, hacc2, _, _, _⟩ :=
      ASys.run_flow (soloSchedule i len m) s i _ ht hcoh
    have hrun : (s.run (soloSchedule i len m)).1 =
        ((s.act (AAct.step i)).1.run (List.replicate m (soloIteration i len)).flatten).1 := rfl
    rw [hrun] at hg hacc2 ⊢
    rw [hfin] at hg
    cases hg
    have h1 := hacc2 hopenFin
    rw [hacc] at h1
    simp only [ASys.account, Pipe.pendingOf, hoffFin, unoffered, hempty, List.flatten_nil,
      List.append_nil] at h1
    exact h1

/-- Witness of C4 as amended: buffer size 4, the source emits "ABCD", the
consumer reads with a buffer of length 4, and "ABCD" arrives. -/
theorem order_preservation_witness :
    (aggrAbcd.tasks.get? 0 = some ⟨1, ⟨1, [abcd]⟩, RPc.entry⟩ ∧
      aggrAbcd.p.pipe.heldBy 0 = false) ∧
      deliveredFrom 0 (aggrAbcd.run (soloSchedule 0 4 5)).1.consumed = abcd :=
  ⟨⟨by decide, by decide⟩,
    (order_preservation aggrAbcd 0 1 ⟨1, [abcd]⟩ [] (by decide) (by decide)).2.2.2 1 4 5
      (List.replicate 4 0) (by decide) (by decide) (by decide) (by decide) (by decide)
      (by decide) (by decide) (by decide)⟩

/-- The scenario of the aggregator in full: buffer size 4, a source emitting
"ABCD" is added, its task runs two iterations and the consumer reads twice
with a buffer of length 2 and then with one of length 4. -/
theorem aggregate_scenario :
    (aggr0.run [AAct.addReader ⟨1, [abcd]⟩ 1, AAct.step 0, AAct.step 0, AAct.step 0,
        AAct.step 0, AAct.extRead 2, AAct.step 0, AAct.extRead 2, AAct.step 0,
        AAct.step 0, AAct.step 0, AAct.step 0, AAct.extRead 4, AAct.step 0]).2 =
      [(0, TEvent.srcRead 4 none), (0, TEvent.pipeWrite abcd 4 none),
        (0, TEvent.srcRead 0 (some IoError.EOF)), (0, TEvent.pipeWrite [] 0 none)] ∧
      (aggr0.run [AAct.addReader ⟨1, [abcd]⟩ 1, AAct.step 0, AAct.step 0, AAct.step 0,
        AAct.step 0, AAct.extRead 2, AAct.step 0, AAct.extRead 2, AAct.step 0,
        AAct.step 0, AAct.step 0, AAct.step 0, AAct.extRead 4, AAct.step 0]).1.consumed =
      [(0, [65, 66]), (0, [67, 68]), (0, [])] := by
  decide

/-- C6, evaluated on the code. Two `AddWriter` calls launch two invocations of
`writeBroadCast`. When both test `isWriteBroadCastExist` before either sets
it, both are inside the read and fan-out loop; when the first runs up to its
loop before the second starts, the second returns and one is in the loop. -/
theorem single_task_race :
    ((bcast0.run [BAct.addWriter (okWriter 10) 1, BAct.addWriter (okWriter 20) 2,
        BAct.step 0, BAct.step 1, BAct.step 0, BAct.step 1]).1.tasks.filter inLoop).length = 2 ∧
      (bcast0.run [BAct.addWriter (okWriter 10) 1, BAct.addWriter (okWriter 20) 2,
        BAct.step 0, BAct.step 0, BAct.step 1, BAct.step 1]).1.tasks =
          [WPc.loopRead (List.replicate 8 0), WPc.returned] := by
  decide

/-- C7 fails on the code: buffer sizes 0 and -5 are accepted and stored, and
the component built with size 0 registers a destination. -/
theorem invalid_buffer_size_accepted :
    (CreateIntegratedIoReader 0 7).bufferSize = 0 ∧
      (CreateIntegratedIoWriter (-5) 7).bufferSize = -5 ∧
      (AddWriter (CreateIntegratedIoWriter 0 7) (okWriter 10) 1).1.writerList.keys = [1] := by
  decide

/-- C7 as amended. For every buffer size, positive or not, both constructors
return a component with an open pipe, empty membership, the flag unset and
the given size stored as it is. -/
theorem create_stores_bufferSize (bufferSize : Int) (uid : UUID) :
    (CreateIntegratedIoReader bufferSize uid).bufferSize = bufferSize ∧
      (CreateIntegratedIoReader bufferSize uid).readerList.entries = [] ∧
      (CreateIntegratedIoReader bufferSize uid).pipe = Pipe.create ∧
      (CreateIntegratedIoReader bufferSize uid).isReadCollectExist = false ∧
      (CreateIntegratedIoWriter bufferSize uid).bufferSize = bufferSize ∧
      (CreateIntegratedIoWriter bufferSize uid).writerList.entries = [] ∧
      (CreateIntegratedIoWriter bufferSize uid).pipe = Pipe.create ∧
      (CreateIntegratedIoWriter bufferSize uid).isWriteBroadCastExist = false :=
  ⟨rfl, rfl, rfl, rfl, rfl, rfl, rfl, rfl⟩

/-- C8. Destination failure isolation. If in a fan-out the write to the
registered destination `uidF` returns an error, every other registered
destination is still written the full chunk once in that fan-out, the
broadcaster is left as it was, and the task goes on to the next read of the
internal pipe. -/
theorem destination_failure_isolation (p : IntegratedIoWriter_t) (buffer : List Byte) (n : Nat)
    (uidF : UUID) (wF : Writer) (e : IoError)
    (hreg : p.writerList.lookup uidF = some wF)
    (hfail : (wF.Write (buffer.take n)).2 = some e) :
    BEvent.destWrite uidF wF.handle (buffer.take n) (wF.Write (buffer.take n)).1 (some e) ∈
        (writeBroadCastStep p (WPc.loopFanOut buffer n)).2.2 ∧
      (∀ uid w, uid ≠ uidF → p.writerList.lookup uid = some w →
        (writeBroadCastStep p (WPc.loopFanOut buffer n)).2.2.filter (BEvent.isWriteTo uid) =
          [BEvent.destWrite uid w.handle (buffer.take n)
            (w.Write (buffer.take n)).1 (w.Write (buffer.take n)).2]) ∧
      (writeBroadCastStep p (WPc.loopFanOut buffer n)).1 = p ∧
      (writeBroadCastStep p (WPc.loopFanOut buffer n)).2.1 = WPc.loopRead buffer ∧
      (∀ pipe buffer2 n2 err, p.pipe.Read buffer = some (pipe, buffer2, n2, err) →
        (writeBroadCastStep p (WPc.loopRead buffer)).2.2 = [BEvent.pipeRead n2 err]) := by
  refine ⟨?_, ?_, rfl, rfl, ?_⟩
  · have hm : BEvent.destWrite uidF wF.handle (buffer.take n) (wF.Write (buffer.take n)).1
        (some e) ∈ (fanOut p buffer n).filter (BEvent.isWriteTo uidF) := by
      rw [fanOut_filter_registered p buffer n uidF wF hreg, writeEvent, hfail]
      exact List.mem_singleton.mpr rfl
    exact (List.mem_filter.mp hm).1
  · intro uid w _ hl
    exact fanOut_filter_registered p buffer n uid w hl
  · intro pipe buffer2 n2 err hread
    simp only [writeBroadCastStep, hread]

/-- Witness of C8: D1 is visited first and fails, D2 is still written "hello". -/
theorem destination_failure_isolation_witness :
    (bcastBroken.writerList.entries.map Prod.fst = [1, 2] ∧
      ((brokenWriter 10).Write (hello.take 5)).2 = some IoError.ErrClosedPipe) ∧
      (writeBroadCastStep bcastBroken (WPc.loopFanOut hello 5)).2.2.filter
          (BEvent.isWriteTo 2) = [BEvent.destWrite 2 20 hello 5 none] :=
  ⟨⟨by decide, rfl⟩,
    (destination_failure_isolation bcastBroken hello 5 1 (brokenWriter 10)
        IoError.ErrClosedPipe rfl rfl).2.1 2 (okWriter 20) (by decide) rfl⟩

/-- C9 fails on the code: after `CloseAllWriter` the read of the pipe fails
with end-of-stream, and the task stays in its loop, writing a chunk of
length zero to D1 after each failed read. -/
theorem closeAll_task_keeps_writing :
    ((bcastOne.act BAct.closeAll).1.run
        [BAct.step 0, BAct.step 0, BAct.step 0, BAct.step 0]).2 =
      [BEvent.pipeRead 0 (some IoError.EOF), BEvent.destWrite 1 10 [] 0 none,
        BEvent.pipeRead 0 (some IoError.EOF), BEvent.destWrite 1 10 [] 0 none] ∧
      ((bcastOne.act BAct.closeAll).1.run
        [BAct.step 0, BAct.step 0, BAct.step 0, BAct.step 0]).1.tasks =
      [WPc.loopRead (List.replicate 8 0)] := by
  decide

/-- C9 as amended. After `CloseAllWriter` (the read end being open) the read
of the internal pipe by the broadcast task fails with end-of-stream and count
0; the task drops the error, writes a chunk of length zero once to every
registered destination and is back at the read, in the same state; so after
any number `k` of iterations it is still in its loop and has done `k` failed
reads and `k` rounds of zero-length writes. -/
theorem closeAll_loop_continues (p : IntegratedIoWriter_t) (buffer : List Byte) (k : Nat)
    (hopen : p.pipe.readClosed = false) :
    (CloseAllWriter p).pipe.Read buffer =
        some ((CloseAllWriter p).pipe, buffer, 0, some IoError.EOF) ∧
      broadcastIteration (CloseAllWriter p) buffer =
        (CloseAllWriter p, WPc.loopRead buffer,
          BEvent.pipeRead 0 (some IoError.EOF) ::
            p.writerList.entries.map (fun e =>
              BEvent.destWrite e.1 e.2.handle [] (e.2.Write []).1 (e.2.Write []).2)) ∧
      (BSys.run ⟨CloseAllWriter p, [WPc.loopRead buffer]⟩
          (List.replicate (2 * k) (BAct.step 0))).1.tasks = [WPc.loopRead buffer] ∧
      (BSys.run ⟨CloseAllWriter p, [WPc.loopRead buffer]⟩
          (List.replicate (2 * k) (BAct.step 0))).2 =
        (List.replicate k (BEvent.pipeRead 0 (some IoError.EOF) ::
            p.writerList.entries.map (fun e =>
              BEvent.destWrite e.1 e.2.handle [] (e.2.Write []).1 (e.2.Write []).2))).flatten := by
  have hread : (CloseAllWriter p).pipe.Read buffer =
      some ((CloseAllWriter p).pipe, buffer, 0, some IoError.EOF) := by
    simp [CloseAllWriter, Pipe.CloseWriter, Pipe.Read, hopen]
  have hs1 : writeBroadCastStep (CloseAllWriter p) (WPc.loopRead buffer) =
      (CloseAllWriter p, WPc.loopFanOut buffer 0, [BEvent.pipeRead 0 (some IoError.EOF)]) := by
    simp only [writeBroadCastStep, hread]
  have hs2 : writeBroadCastStep (CloseAllWriter p) (WPc.loopFanOut buffer 0) =
      (CloseAllWriter p, WPc.loopRead buffer,
        p.writerList.entries.map (fun e =>
          BEvent.destWrite e.1 e.2.handle [] (e.2.Write []).1 (e.2.Write []).2)) := by
    simp only [writeBroadCastStep, fanOut_eq, List.take_zero]
    rfl
  have hrun : ∀ j : Nat, BSys.run ⟨CloseAllWriter p, [WPc.loopRead buffer]⟩
      (List.replicate (2 * j) (BAct.step 0)) =
      (⟨CloseAllWriter p, [WPc.loopRead buffer]⟩,
        (List.replicate j (BEvent.pipeRead 0 (some IoError.EOF) ::
          p.writerList.entries.map (fun e =>
            BEvent.destWrite e.1 e.2.handle [] (e.2.Write []).1 (e.2.Write []).2))).flatten) := by
    intro j
    induction j with
    | zero => rfl
    | succ j ih =>
      have hsplit : List.replicate (2 * (j + 1)) (BAct.step 0) =
          BAct.step 0 :: BAct.step 0 :: List.replicate (2 * j) (BAct.step 0) := by
        rw [show 2 * (j + 1) = 2 * j + 1 + 1 by omega]
        rfl
      have hg0 : (BSys.mk (CloseAllWriter p) [WPc.loopRead buffer]).tasks.get? 0 =
          some (WPc.loopRead buffer) := rfl
      have hl0 : (BSys.mk (CloseAllWriter p) [WPc.loopRead buffer]).crashed = false := rfl
      rw [hsplit, BSys.run_loop_step _ 0 (WPc.loopRead buffer) _ hl0 hg0, hs1]
      have hg : (BSys.mk (CloseAllWriter p)
          ([WPc.loopRead buffer].set 0 (WPc.loopFanOut buffer 0))).tasks.get? 0 =
          some (WPc.loopFanOut buffer 0) := rfl
      have hl1 : (BSys.mk (CloseAllWriter p)
          ([WPc.loopRead buffer].set 0 (WPc.loopFanOut buffer 0))).crashed = false := rfl
      rw [BSys.run_loop_step _ 0 (WPc.loopFanOut buffer 0) _ hl1 hg, hs2]
      simp only [List.set_cons_zero]
      rw [ih]
      simp [List.replicate_succ]
  refine ⟨hread, ?_, ?_, ?_⟩
  · simp only [broadcastIteration, hs1, hs2, List.singleton_append]
  · rw [hrun k]
  · rw [hrun k]

/-- Witness of C9 as amended: the broadcaster with D1 after `CloseAllWriter`,
three iterations. -/
theorem closeAll_loop_continues_witness :
    bcastOne.p.pipe.readClosed = false ∧
      (BSys.run ⟨CloseAllWriter bcastOne.p, [WPc.loopRead (List.replicate 8 0)]⟩
          (List.replicate (2 * 3) (BAct.step 0))).1.tasks =
        [WPc.loopRead (List.replicate 8 0)] :=
  ⟨by decide, (closeAll_loop_continues bcastOne.p (List.replicate 8 0) 3 (by decide)).2.2.1⟩

/-- C10 fails on the code: the source is exhausted and the pipe is closed, yet
the task with its id registered, after the read that reports end-of-stream
and the write that reports the closed pipe, reads the source again and writes
again. -/
theorem forwarding_task_survives_errors :
    (aggrClosed.run (List.replicate 8 (AAct.step 0))).2 =
      [(0, TEvent.srcRead 0 (some IoError.EOF)),
        (0, TEvent.pipeWrite [] 0 (some IoError.ErrClosedPipe)),
        (0, TEvent.srcRead 0 (some IoError.EOF)),
        (0, TEvent.pipeWrite [] 0 (some IoError.ErrClosedPipe))] ∧
      (aggrClosed.run (List.replicate 8 (AAct.step 0))).1.tasks =
        [⟨1, ⟨1, []⟩, RPc.read (List.replicate 4 0)⟩] := by
  decide

/-- C10 as amended. Take a forwarding task at its read with its id registered,
in a process that has not panicked, and let the read return count `n1` and
the result `e1`, an error or not. The task drops the result and passes
`buffer[:n1]` to `Write`. On a closed pipe that call returns count 0 and
`ErrClosedPipe`; the task drops this too, goes back to the membership check,
finds its id, reads the source again and calls `Write` again, and stands at
the next check. On an open pipe with no write under way and a consumer
whose buffer holds a whole chunk the call returns the full count, and the
task goes back to the check and reads the source again. A task leaves its
loop only at a membership check that finds its id absent. -/
theorem forwarding_errors_discarded (s : ASys) (i : Nat) (uid : UUID) (r r1 r2 : Reader)
    (b b1 b2 : List Byte) (h n1 n2 : Nat) (e1 e2 : Option IoError)
    (hlive : s.crashed = false)
    (ht : s.tasks.get? i = some ⟨uid, r, RPc.read b⟩)
    (hreg : s.p.readerList.lookup uid = some h)
    (hr1 : r.Read b = (r1, b1, n1, e1))
    (hr2 : r1.Read b1 = (r2, b2, n2, e2)) :
    (s.p.pipe.isOpen = false →
      (s.run (List.replicate 5 (AAct.step i))).2 =
          [(i, TEvent.srcRead n1 e1),
            (i, TEvent.pipeWrite (b1.take n1) 0 (some IoError.ErrClosedPipe)),
            (i, TEvent.srcRead n2 e2),
            (i, TEvent.pipeWrite (b2.take n2) 0 (some IoError.ErrClosedPipe))] ∧
        (s.run (List.replicate 5 (AAct.step i))).1.tasks.get? i =
          some ⟨uid, r2, RPc.check b2⟩) ∧
      (∀ len : Nat, s.p.pipe.isOpen = true → s.p.pipe.offer = none → b.length ≤ len →
        (s.run [AAct.step i, AAct.step i, AAct.extRead len, AAct.step i, AAct.step i,
            AAct.step i]).2 =
          [(i, TEvent.srcRead n1 e1),
            (i, TEvent.pipeWrite (b1.take n1) (b1.take n1).length none),
            (i, TEvent.srcRead n2 e2)] ∧
        (s.run [AAct.step i, AAct.step i, AAct.extRead len, AAct.step i, AAct.step i,
            AAct.step i]).1.tasks.get? i = some ⟨uid, r2, RPc.write b2 n2⟩) ∧
      (∀ (who : Nat) (p : IntegratedIoReader_t) (t : ReadTask),
        (readBroadCastStep who p t).2.1.pc = RPc.exited →
        t.pc = RPc.exited ∨ ∃ b3, t.pc = RPc.check b3 ∧ p.readerList.lookup t.Uid = none) := by
  have hs1 : readBroadCastStep i s.p ⟨uid, r, RPc.read b⟩ =
      (s.p, ⟨uid, r1, RPc.write b1 n1⟩, [TEvent.srcRead n1 e1]) := by
    simp only [readBroadCastStep, hr1]
  obtain ⟨hp1, hg1, hl1, _, he1⟩ := ASys.step_result s i _ _ _ _ hlive ht hs1 rfl
  refine ⟨?_, ?_, fun who p t hx => readStep_exit_only who p t hx⟩
  · intro hclosed
    -- the write fails at once
    have hc1 : (s.act (AAct.step i)).1.p.pipe.isOpen = false := by
      rw [hp1]
      exact hclosed
    have hs2 : readBroadCastStep i (s.act (AAct.step i)).1.p ⟨uid, r1, RPc.write b1 n1⟩ =
        ((s.act (AAct.step i)).1.p, ⟨uid, r1, RPc.check b1⟩,
          [TEvent.pipeWrite (b1.take n1) 0 (some IoError.ErrClosedPipe)]) := by
      simp only [readBroadCastStep, WriteStart_closed _ i _ hc1]
    obtain ⟨hp2, hg2, hl2, _, he2⟩ := ASys.step_result _ i _ _ _ _ hl1 hg1 hs2 rfl
    -- the membership check finds the id
    have hs3 := readStep_check_present i ((s.act (AAct.step i)).1.act (AAct.step i)).1.p
      uid r1 b1 h (by rw [hp2, hp1]; exact hreg)
    obtain ⟨hp3, hg3, hl3, _, he3⟩ := ASys.step_result _ i _ _ _ _ hl2 hg2 hs3 rfl
    -- the source is read again
    have hs4 : readBroadCastStep i
        (((s.act (AAct.step i)).1.act (AAct.step i)).1.act (AAct.step i)).1.p
        ⟨uid, r1, RPc.read b1⟩ =
        ((((s.act (AAct.step i)).1.act (AAct.step i)).1.act (AAct.step i)).1.p,
          ⟨uid, r2, RPc.write b2 n2⟩, [TEvent.srcRead n2 e2]) := by
      simp only [readBroadCastStep, hr2]
    obtain ⟨hp4, hg4, hl4, _, he4⟩ := ASys.step_result _ i _ _ _ _ hl3 hg3 hs4 rfl
    -- the write is tried again and fails again
    have hc4 : ((((s.act (AAct.step i)).1.act (AAct.step i)).1.act (AAct.step i)).1.act
        (AAct.step i)).1.p.pipe.isOpen = false := by
      rw [hp4, hp3, hp2]
      exact hc1
    have hs5 : readBroadCastStep i
        ((((s.act (AAct.step i)).1.act (AAct.step i)).1.act (AAct.step i)).1.act
          (AAct.step i)).1.p ⟨uid, r2, RPc.write b2 n2⟩ =
        (((((s.act (AAct.step i)).1.act (AAct.step i)).1.act (AAct.step i)).1.act
          (AAct.step i)).1.p, ⟨uid, r2, RPc.check b2⟩,
          [TEvent.pipeWrite (b2.take n2) 0 (some IoError.ErrClosedPipe)]) := by
      simp only [readBroadCastStep, WriteStart_closed _ i _ hc4]
    obtain ⟨hp5, hg5, hl5, _, he5⟩ := ASys.step_result _ i _ _ _ _ hl4 hg4 hs5 rfl
    refine ⟨?_, hg5⟩
    show (s.act (AAct.step i)).2 ++ (((s.act (AAct.step i)).1.act (AAct.step i)).2 ++
      ((((s.act (AAct.step i)).1.act (AAct.step i)).1.act (AAct.step i)).2 ++
      (((((s.act (AAct.step i)).1.act (AAct.step i)).1.act (AAct.step i)).1.act
        (AAct.step i)).2 ++
      ((((((s.act (AAct.step i)).1.act (AAct.step i)).1.act (AAct.step i)).1.act
        (AAct.step i)).1.act (AAct.step i)).2 ++ [])))) = _
    rw [he1, he2, he3, he4, he5]
    rfl
  · intro len hopen hoff hlen
    -- the chunk is put on offer
    have hoff1 : (s.act (AAct.step i)).1.p.pipe.offer = none := by
      rw [hp1]
      exact hoff
    have hopen1 : (s.act (AAct.step i)).1.p.pipe.isOpen = true := by
      rw [hp1]
      exact hopen
    have hs2 : readBroadCastStep i (s.act (AAct.step i)).1.p ⟨uid, r1, RPc.write b1 n1⟩ =
        ({ (s.act (AAct.step i)).1.p with
            pipe := { (s.act (AAct.step i)).1.p.pipe with offer := some (i, b1.take n1) } },
          ⟨uid, r1, RPc.writing b1 n1⟩, []) := by
      simp only [readBroadCastStep, WriteStart_free _ i _ hoff1 hopen1]
    obtain ⟨hp2, hg2, hl2, _, he2⟩ := ASys.step_result _ i _ _ _ _ hl1 hg1 hs2 rfl
    -- the consumer takes it
    have hoff2 : ((s.act (AAct.step i)).1.act (AAct.step i)).1.p.pipe.offer =
        some (i, b1.take n1) := by
      rw [hp2]
    have hopen2 : ((s.act (AAct.step i)).1.act (AAct.step i)).1.p.pipe.isOpen = true := by
      rw [hp2]
      exact hopen1
    have hb1 : b1.length = b.length := by
      have := Reader.Read_length r b
      rw [hr1] at this
      exact this
    have hclen : (b1.take n1).length ≤ len := by
      rw [List.length_take]
      omega
    obtain ⟨buf, hread, _⟩ := Pipe.Read_all _ i len _ hoff2 hopen2 hclen
    have hact3 := ASys.act_extRead_some _ len _ hl2 hread
    have hl3 : (((s.act (AAct.step i)).1.act (AAct.step i)).1.act
        (AAct.extRead len)).1.crashed = false := by
      rw [hact3]
      exact hl2
    have hg3 : (((s.act (AAct.step i)).1.act (AAct.step i)).1.act
        (AAct.extRead len)).1.tasks.get? i = some ⟨uid, r1, RPc.writing b1 n1⟩ := by
      rw [hact3]
      exact hg2
    have hoff3 : (((s.act (AAct.step i)).1.act (AAct.step i)).1.act
        (AAct.extRead len)).1.p.pipe.offer = none := by
      rw [hact3]
    have hrl3 : (((s.act (AAct.step i)).1.act (AAct.step i)).1.act
        (AAct.extRead len)).1.p.readerList = s.p.readerList := by
      rw [hact3]
      show ((s.act (AAct.step i)).1.act (AAct.step i)).1.p.readerList = _
      rw [hp2]
      show (s.act (AAct.step i)).1.p.readerList = _
      rw [hp1]
    have he3 : (((s.act (AAct.step i)).1.act (AAct.step i)).1.act
        (AAct.extRead len)).2 = [] := by
      rw [hact3]
    -- the write returns in full
    have hs4 : readBroadCastStep i (((s.act (AAct.step i)).1.act (AAct.step i)).1.act
        (AAct.extRead len)).1.p ⟨uid, r1, RPc.writing b1 n1⟩ =
        ((((s.act (AAct.step i)).1.act (AAct.step i)).1.act (AAct.extRead len)).1.p,
          ⟨uid, r1, RPc.check b1⟩,
          [TEvent.pipeWrite (b1.take n1) (b1.take n1).length none]) := by
      simp only [readBroadCastStep, Pipe.WriteWait, hoff3]
    obtain ⟨hp4, hg4, hl4, _, he4⟩ := ASys.step_result _ i _ _ _ _ hl3 hg3 hs4 rfl
    -- the membership check finds the id
    have hs5 := readStep_check_present i ((((s.act (AAct.step i)).1.act (AAct.step i)).1.act
      (AAct.extRead len)).1.act (AAct.step i)).1.p uid r1 b1 h
      (by rw [hp4, hrl3]; exact hreg)
    obtain ⟨hp5, hg5, hl5, _, he5⟩ := ASys.step_result _ i _ _ _ _ hl4 hg4 hs5 rfl
    -- the source is read again
    have hs6 : readBroadCastStep i (((((s.act (AAct.step i)).1.act (AAct.step i)).1.act
        (AAct.extRead len)).1.act (AAct.step i)).1.act (AAct.step i)).1.p
        ⟨uid, r1, RPc.read b1⟩ =
        ((((((s.act (AAct.step i)).1.act (AAct.step i)).1.act
          (AAct.extRead len)).1.act (AAct.step i)).1.act (AAct.step i)).1.p,
          ⟨uid, r2, RPc.write b2 n2⟩, [TEvent.srcRead n2 e2]) := by
      simp only [readBroadCastStep, hr2]
    obtain ⟨hp6, hg6, hl6, _, he6⟩ := ASys.step_result _ i _ _ _ _ hl5 hg5 hs6 rfl
    refine ⟨?_, hg6⟩
    show (s.act (AAct.step i)).2 ++ (((s.act (AAct.step i)).1.act (AAct.step i)).2 ++
      ((((s.act (AAct.step i)).1.act (AAct.step i)).1.act (AAct.extRead len)).2 ++
      (((((s.act (AAct.step i)).1.act (AAct.step i)).1.act (AAct.extRead len)).1.act
        (AAct.step i)).2 ++
      ((((((s.act (AAct.step i)).1.act (AAct.step i)).1.act (AAct.extRead len)).1.act
        (AAct.step i)).1.act (AAct.step i)).2 ++
      (((((((s.act (AAct.step i)).1.act (AAct.step i)).1.act (AAct.extRead len)).1.act
        (AAct.step i)).1.act (AAct.step i)).1.act (AAct.step i)).2 ++ []))))) = _
    rw [he1, he2, he3, he4, he5, he6]
    rfl

/-- Witness of C10 as amended: exhausted source, closed pipe, the task at its read. -/
theorem forwarding_errors_discarded_witness :
    (aggrClosedAtRead.crashed = false ∧
      aggrClosedAtRead.tasks.get? 0 = some ⟨1, ⟨1, []⟩, RPc.read (List.replicate 4 0)⟩ ∧
      aggrClosedAtRead.p.readerList.lookup 1 = some 1 ∧
      aggrClosedAtRead.p.pipe.isOpen = false) ∧
      (aggrClosedAtRead.run (List.replicate 5 (AAct.step 0))).2 =
        [(0, TEvent.srcRead 0 (some IoError.EOF)),
          (0, TEvent.pipeWrite [] 0 (some IoError.ErrClosedPipe)),
          (0, TEvent.srcRead 0 (some IoError.EOF)),
          (0, TEvent.pipeWrite [] 0 (some IoError.ErrClosedPipe))] :=
  ⟨⟨by decide, by decide, by decide, by decide⟩,
    ((forwarding_errors_discarded aggrClosedAtRead 0 1 ⟨1, []⟩ ⟨1, []⟩ ⟨1, []⟩
      (List.replicate 4 0) (List.replicate 4 0) (List.replicate 4 0) 1 0 0
      (some IoError.EOF) (some IoError.EOF)
      (by decide) (by decide) (by decide) (by decide) (by decide)).1 (by decide)).1⟩

end IoIntegrate
